import Mathlib

/-!
# SimpleVCO and JuliaScope: embedding and verified properties

A shallow embedding of `src/src/SimpleVCO.cpp` and `src/src/JuliaScope.cpp`.

Conventions of the embedding.

* A C++ `float` is modelled by exact arithmetic: the audio-rate code, which calls `exp`, `log`,
  `pow` and `sin`, is over `ℝ`; the palette and the renderer, which use field operations,
  comparisons and truncation, are over an arbitrary floored linear ordered field `K`
  (`ℚ` evaluates, `ℝ` carries the analysis), with `sqrt` and `pow` passed in as functions.
  Rounding, NaN and infinities are outside the model: a value computed here is the
  exact-arithmetic counterpart of the `float` the source computes. Properties that hinge on
  how the envelope, smoothing, orbit or lighting arithmetic rounds are not stated.
* A C++ `int` is `Int`; the counters stay far below `2^31`, so no wrap-around is modelled.
* Host state is passed explicitly: each `process` / `drawLayer` call takes the module state and
  the values the host supplies for that call and returns the new state.
* Arrays are functions from the index, written with `Function.update`; `for` loops are folds
  over `List.range`.
-/

namespace VCV

/-! ## Host SDK pieces used by the sources -/

/-- Modelled from the spec: the host SDK's `clamp(x, a, b)` is declared in the framework headers,
which are not part of the sources; the spec's "clamped to `[a, b]`" is `max (min x b) a`. -/
def clamp {K : Type} [LinearOrder K] (x a b : K) : K := max (min x b) a

/-- C++ conversion of a floating value to `int`: truncation toward zero. -/
def truncToInt {K : Type} [LinearOrderedField K] [FloorRing K] (x : K) : Int :=
  if 0 ≤ x then ⌊x⌋ else ⌈x⌉

/-- C++ conversion of a floating value to `uint8_t`: truncate, keep the low eight bits. -/
def toUInt8 {K : Type} [LinearOrderedField K] [FloorRing K] (x : K) : Nat :=
  (truncToInt x % 256).toNat

/-! ## SimpleVCO.cpp -/

/-- State of `struct SimpleVCO`: the phase accumulator and the voltages held by the four
output ports (`setVoltage` overwrites a port, an unconnected port keeps its voltage). -/
structure SimpleVCO where
  phase : ℝ
  sineOut : ℝ
  triOut : ℝ
  sawOut : ℝ
  squareOut : ℝ

/-- What the host supplies to one `SimpleVCO::process` call: `ProcessArgs`, the three knobs,
the two input voltages and the four `isConnected()` flags. -/
structure VCOArgs where
  sampleRate : ℝ
  sampleTime : ℝ
  freqParam : ℝ
  fineParam : ℝ
  fmParam : ℝ
  voct : ℝ
  fm : ℝ
  sineConnected : Bool
  triConnected : Bool
  sawConnected : Bool
  squareConnected : Bool

/-- Field initialisers of `SimpleVCO`: `phase = 0.f`; ports start at 0 V. -/
def SimpleVCO.init : SimpleVCO :=
  { phase := 0, sineOut := 0, triOut := 0, sawOut := 0, squareOut := 0 }

noncomputable section

/-- Lines 42-48 of `SimpleVCO::process`: the pitch in octaves. -/
def SimpleVCO.pitch (a : VCOArgs) : ℝ :=
  a.freqParam + a.fineParam / 12 + a.voct + a.fm * a.fmParam

/-- Lines 50-51 of `SimpleVCO::process`: `dsp::FREQ_C4 * pow(2, pitch)` clamped to
`[0, sampleRate / 2]`. The SDK constant `dsp::FREQ_C4` is a parameter. -/
def SimpleVCO.freq (FREQ_C4 pitch sampleRate : ℝ) : ℝ :=
  clamp (FREQ_C4 * (2 : ℝ) ^ pitch) 0 (sampleRate / 2)

/-- Lines 53-55 of `SimpleVCO::process`: advance the phase, subtract 1 once when it reaches 1. -/
def SimpleVCO.nextPhase (FREQ_C4 : ℝ) (s : SimpleVCO) (a : VCOArgs) : ℝ :=
  let phase := s.phase + SimpleVCO.freq FREQ_C4 (SimpleVCO.pitch a) a.sampleRate * a.sampleTime
  if phase ≥ 1 then phase - 1 else phase

/-- The method `SimpleVCO::process`. -/
def SimpleVCO.process (FREQ_C4 : ℝ) (s : SimpleVCO) (a : VCOArgs) : SimpleVCO :=
  let phase := SimpleVCO.nextPhase FREQ_C4 s a
  { phase := phase
    sineOut :=
      if a.sineConnected then
        let sine := Real.sin (2 * Real.pi * phase)
        5 * sine
      else s.sineOut
    triOut :=
      if a.triConnected then
        let tri := 4 * |phase - 0.5| - 1
        5 * tri
      else s.triOut
    sawOut :=
      if a.sawConnected then
        let saw := 2 * phase - 1
        5 * saw
      else s.sawOut
    squareOut :=
      if a.squareConnected then
        let square : ℝ := if phase < 0.5 then 1 else -1
        5 * square
      else s.squareOut }

/-- Successive `process` calls, one per element of the list, oldest first. -/
def SimpleVCO.run (FREQ_C4 : ℝ) (s : SimpleVCO) (l : List VCOArgs) : SimpleVCO :=
  l.foldl (SimpleVCO.process FREQ_C4) s

end


/-! ## JuliaScope.cpp: the module -/

def RING_BUFFER_SIZE : Int := 2048
def DISPLAY_WIDTH : Nat := 200
def DISPLAY_HEIGHT : Nat := 155

/-- The member `JuliaScope::FREQ_WINDOW`. -/
def FREQ_WINDOW : Int := 2048

/-- Data members of `struct JuliaScope` (the `pixels` array, which no method touches after the
constructor zeroes it, is left out). -/
structure JuliaScope where
  leftBuffer : Int → ℝ
  rightBuffer : Int → ℝ
  bufferIndex : Int
  leftEnvelope : ℝ
  rightEnvelope : ℝ
  lastSample : ℝ
  zeroCrossings : Int
  samplesSinceReset : Int
  detectedFreq : ℝ
  smoothFreq : ℝ
  smoothCReal : ℝ
  smoothCImag : ℝ
  smoothZoom : ℝ
  smoothTilt : ℝ
  frameCounter : Int
  pixelsDirty : Bool
  sampleRate : ℝ

/-- What the host supplies to one `JuliaScope::process` call: `ProcessArgs`, the five input
voltages, whether the right input is connected, and the eight knob values. -/
structure ScopeArgs where
  sampleRate : ℝ
  sampleTime : ℝ
  leftVoltage : ℝ
  rightVoltage : ℝ
  rightConnected : Bool
  reCV : ℝ
  imCV : ℝ
  zoomCV : ℝ
  cRealParam : ℝ
  cImagParam : ℝ
  zoomParam : ℝ
  iterParam : ℝ
  colorParam : ℝ
  modParam : ℝ
  speedParam : ℝ
  tiltParam : ℝ

noncomputable section

/-- Field initialisers of `JuliaScope`. -/
def JuliaScope.init : JuliaScope :=
  { leftBuffer := fun _ => 0
    rightBuffer := fun _ => 0
    bufferIndex := 0
    leftEnvelope := 0
    rightEnvelope := 0
    lastSample := 0
    zeroCrossings := 0
    samplesSinceReset := 0
    detectedFreq := 440
    smoothFreq := 440
    smoothCReal := -0.7
    smoothCImag := 0.27015
    smoothZoom := 1
    smoothTilt := 0
    frameCounter := 0
    pixelsDirty := true
    sampleRate := 44100 }

/-- The method `JuliaScope::process`, statement by statement. The pitch-detector fields
(`lastSample`, `zeroCrossings`, `samplesSinceReset`, `detectedFreq`) are decided by sign
comparisons, integer counts and a clamp. The envelope, target and smoothed fields are the
exact-arithmetic values of lines 119-168; the source rounds each of their operations to `float`. -/
def JuliaScope.process (s : JuliaScope) (a : ScopeArgs) : JuliaScope :=
  -- Get audio input (right normalizes to left)
  let leftSample := a.leftVoltage / 5
  let rightSample := if a.rightConnected then a.rightVoltage / 5 else leftSample
  -- Store in ring buffer
  let leftBuffer := Function.update s.leftBuffer s.bufferIndex leftSample
  let rightBuffer := Function.update s.rightBuffer s.bufferIndex rightSample
  let bufferIndex := Int.tmod (s.bufferIndex + 1) RING_BUFFER_SIZE
  -- Zero-crossing pitch detection
  let zeroCrossings :=
    if (s.lastSample ≤ 0 ∧ leftSample > 0) ∨ (s.lastSample ≥ 0 ∧ leftSample < 0) then
      s.zeroCrossings + 1
    else s.zeroCrossings
  let lastSample := leftSample
  let samplesSinceReset := s.samplesSinceReset + 1
  let windowDone : Prop := samplesSinceReset ≥ FREQ_WINDOW
  let freq := clamp (((zeroCrossings : ℝ) / 2) * (a.sampleRate / (FREQ_WINDOW : ℝ))) 20 5000
  let detectedFreq := if windowDone then freq else s.detectedFreq
  let zeroCrossings := if windowDone then 0 else zeroCrossings
  let samplesSinceReset := if windowDone then 0 else samplesSinceReset
  -- Envelope follower with adjustable speed
  let speed := a.speedParam
  let attackTime := 0.001 + (1 - speed) * 0.1
  let releaseTime := 0.01 + (1 - speed) * 0.5
  let attackCoeff := 1 - Real.exp (-a.sampleTime / attackTime)
  let releaseCoeff := 1 - Real.exp (-a.sampleTime / releaseTime)
  let leftAbs := |leftSample|
  let rightAbs := |rightSample|
  let leftEnvelope :=
    if leftAbs > s.leftEnvelope then s.leftEnvelope + attackCoeff * (leftAbs - s.leftEnvelope)
    else s.leftEnvelope + releaseCoeff * (leftAbs - s.leftEnvelope)
  let rightEnvelope :=
    if rightAbs > s.rightEnvelope then
      s.rightEnvelope + attackCoeff * (rightAbs - s.rightEnvelope)
    else s.rightEnvelope + releaseCoeff * (rightAbs - s.rightEnvelope)
  -- Get base parameters, add CV modulation
  let baseCReal := a.cRealParam + a.reCV * 0.2
  let baseCImag := a.cImagParam + a.imCV * 0.2
  let baseZoom := clamp (a.zoomParam + a.zoomCV * 0.1) 0.1 10
  -- Add audio modulation
  let modDepth := a.modParam
  let targetCReal := baseCReal + leftEnvelope * modDepth * 0.5
  let targetCImag := baseCImag + rightEnvelope * modDepth * 0.5
  -- Map frequency to tilt angle
  let freqNorm := clamp ((Real.log detectedFreq - Real.log 20)
    / (Real.log 5000 - Real.log 20)) 0 1
  let tiltAmount := a.tiltParam
  let targetTilt := (freqNorm * 2 - 1) * tiltAmount
  -- Smooth the values
  let smoothCoeff := 1 - Real.exp (-a.sampleTime / (0.01 + (1 - speed) * 0.1))
  { leftBuffer := leftBuffer
    rightBuffer := rightBuffer
    bufferIndex := bufferIndex
    leftEnvelope := leftEnvelope
    rightEnvelope := rightEnvelope
    lastSample := lastSample
    zeroCrossings := zeroCrossings
    samplesSinceReset := samplesSinceReset
    detectedFreq := detectedFreq
    smoothFreq := s.smoothFreq + smoothCoeff * (detectedFreq - s.smoothFreq)
    smoothCReal := s.smoothCReal + smoothCoeff * (targetCReal - s.smoothCReal)
    smoothCImag := s.smoothCImag + smoothCoeff * (targetCImag - s.smoothCImag)
    smoothZoom := s.smoothZoom + smoothCoeff * (baseZoom - s.smoothZoom)
    smoothTilt := s.smoothTilt + smoothCoeff * (targetTilt - s.smoothTilt)
    frameCounter := s.frameCounter
    pixelsDirty := true
    sampleRate := a.sampleRate }

/-- Successive `process` calls, one per element of the list, oldest first. -/
def JuliaScope.run (s : JuliaScope) (l : List ScopeArgs) : JuliaScope :=
  l.foldl JuliaScope.process s

/-- Number of crossings the test of `process` counts along a run of samples that follows the
sample `last`. -/
def countCrossings (last : ℝ) : List ℝ → ℕ
  | [] => 0
  | x :: xs => (if (last ≤ 0 ∧ x > 0) ∨ (last ≥ 0 ∧ x < 0) then 1 else 0) + countCrossings x xs

/-- The left sample `process` reads for a call: the left voltage over 5. -/
def leftSampleOf (a : ScopeArgs) : ℝ := a.leftVoltage / 5

end

/-! ## JuliaScope.cpp: the palette and the display -/

section Renderer

variable {K : Type} [LinearOrderedField K] [FloorRing K]

/-- The static method `ColorPalette::getColor`; the result is the triple `(r, g, b)` written
through the three reference parameters. `sqrtf` is `std::sqrt`. -/
def ColorPalette.getColor (sqrtf : K → K) (mode iter maxIter : Int) (brightness : K) :
    Nat × Nat × Nat :=
  if iter ≥ maxIter then (0, 0, 0)
  else
    let t : K := (iter : K) / (maxIter : K)
    let base : K × K × K :=
      if mode = 0 then
        (9 * (1 - t) * t * t * t, 15 * (1 - t) * (1 - t) * t * t,
          8.5 * (1 - t) * (1 - t) * (1 - t) * t)
      else if mode = 1 then
        (min 1 (t * 3), max 0 (min 1 (t * 3 - 1)), max 0 (t * 3 - 2))
      else if mode = 2 then
        (t * t, t, sqrtf t)
      else if mode = 3 then
        let h := t * 6
        let i := truncToInt h
        let f := h - (i : K)
        if Int.tmod i 6 = 0 then (1, f, 0)
        else if Int.tmod i 6 = 1 then (1 - f, 1, 0)
        else if Int.tmod i 6 = 2 then (0, 1, f)
        else if Int.tmod i 6 = 3 then (0, 1 - f, 1)
        else if Int.tmod i 6 = 4 then (f, 0, 1)
        else if Int.tmod i 6 = 5 then (1, 0, 1 - f)
        else (0, 0, 0)
      else (t, t, t)
    -- Apply brightness (3D lighting)
    let br := base.1 * brightness
    let bg := base.2.1 * brightness
    let bb := base.2.2 * brightness
    (toUInt8 (clamp br 0 1 * 255), toUInt8 (clamp bg 0 1 * 255), toUInt8 (clamp bb 0 1 * 255))

/-- The member `JuliaScopeDisplay::FRAME_SKIP_COUNT`. -/
def FRAME_SKIP_COUNT : Int := 2

/-- What `renderJuliaSet` reads through the `module` pointer: the values of `getCReal`,
`getCImag`, `getZoom`, `getTilt`, `getMaxIter` and `getColorMode` at the time of the call. -/
structure ModuleView (K : Type) where
  getCReal : K
  getCImag : K
  getZoom : K
  getTilt : K
  getMaxIter : Int
  getColorMode : Int

/-- Data members of `struct JuliaScopeDisplay` that `renderJuliaSet` and the throttle of
`drawLayer` use (the NanoVG image handle belongs to the host's drawing context). -/
structure JuliaScopeDisplay (K : Type) where
  frameSkip : Int
  localPixels : Nat → Nat
  heightMap : Nat → K

/-- The constructor `JuliaScopeDisplay()`: `frameSkip = 0`, both buffers zeroed. -/
def JuliaScopeDisplay.init : JuliaScopeDisplay K :=
  { frameSkip := 0, localPixels := fun _ => 0, heightMap := fun _ => 0 }

/-- The `while` loop of the first pass (lines 301-306), from the loop state `(x, y, iter)` to
the final `iter`. Every turn increments `iter` below `maxIter`, so the loop terminates. The
orbit is iterated in exact arithmetic; the source rounds each operation to `float`. -/
def escapeIter (cReal cImag : K) (maxIter : Int) (x y : K) (iter : Int) : Int :=
  if x * x + y * y ≤ 4 ∧ iter < maxIter then
    escapeIter cReal cImag maxIter (x * x - y * y + cReal) (2 * x * y + cImag) (iter + 1)
  else iter
termination_by (maxIter - iter).toNat
decreasing_by
  rename_i h
  have := h.2
  omega

/-- The x coordinate `x0` the first pass maps pixel column `px` to (lines 274-276, 291). -/
def pixelX0 (zoom : K) (px : Nat) : K :=
  let aspectRatio : K := (DISPLAY_WIDTH : K) / (DISPLAY_HEIGHT : K)
  let xMin := -2 / zoom * aspectRatio
  let xMax := 2 / zoom * aspectRatio
  xMin + (xMax - xMin) * (px : K) / (DISPLAY_WIDTH : K)

/-- The y coordinate `y0` the first pass maps pixel row `py` to, perspective applied
(lines 277-278, 282, 288-295). -/
def pixelY0 (zoom tilt : K) (py : Nat) : K :=
  let yMin := -2 / zoom
  let yMax := 2 / zoom
  let tiltAngle := tilt * 0.5
  let normY : K := (py : K) / (DISPLAY_HEIGHT : K)
  let perspectiveScale := 1 + tiltAngle * (normY - 0.5) * 0.5
  let y0 := yMin + (yMax - yMin) * (py : K) / (DISPLAY_HEIGHT : K)
  y0 * perspectiveScale

/-- First pass of `renderJuliaSet` (lines 285-310): the two nested `for` loops that fill
`heightMap`. -/
def firstPass (v : ModuleView K) (heightMap : Nat → K) : Nat → K :=
  (List.range DISPLAY_HEIGHT).foldl (fun hm py =>
    (List.range DISPLAY_WIDTH).foldl (fun hm px =>
      let x0 := pixelX0 v.getZoom px
      let y0 := pixelY0 v.getZoom v.getTilt py
      let iter := escapeIter v.getCReal v.getCImag v.getMaxIter x0 y0 0
      Function.update hm (py * DISPLAY_WIDTH + px) ((iter : K) / (v.getMaxIter : K))) hm)
    heightMap

/-- Body of the second pass for one pixel (lines 321-350): the `(iter, brightness)` pair handed
to the palette. `sqrtf` is `std::sqrt`, `powf` is `std::pow`. The lighting arithmetic is
exact; the source rounds each operation to `float`. -/
def shadePixel (sqrtf : K → K) (powf : K → K → K) (v : ModuleView K) (heightMap : Nat → K)
    (px py : Nat) : Int × K :=
  let tilt := v.getTilt
  let l0 : K := -0.3 - tilt * 0.5
  let l1 : K := -0.5
  let l2 : K := 1
  let lightLen := sqrtf (l0 * l0 + l1 * l1 + l2 * l2)
  let l0 := l0 / lightLen
  let l1 := l1 / lightLen
  let l2 := l2 / lightLen
  let h := heightMap (py * DISPLAY_WIDTH + px)
  let iter := truncToInt (h * (v.getMaxIter : K))
  -- Compute normal from height map gradient
  let hL := if px > 0 then heightMap (py * DISPLAY_WIDTH + (px - 1)) else h
  let hR := if px < DISPLAY_WIDTH - 1 then heightMap (py * DISPLAY_WIDTH + (px + 1)) else h
  let hU := if py > 0 then heightMap ((py - 1) * DISPLAY_WIDTH + px) else h
  let hD := if py < DISPLAY_HEIGHT - 1 then heightMap ((py + 1) * DISPLAY_WIDTH + px) else h
  let nx := (hL - hR) * 2
  let ny := (hU - hD) * 2
  let nz : K := 0.1
  let nLen := sqrtf (nx * nx + ny * ny + nz * nz)
  let nx := nx / nLen
  let ny := ny / nLen
  let nz := nz / nLen
  -- Diffuse lighting
  let diffuse := max 0 (nx * l0 + ny * l1 + nz * l2)
  -- Ambient + diffuse
  let brightness := 0.3 + 0.7 * diffuse
  -- Add specular highlight for high iteration areas
  let brightness := if h > 0.5 then brightness + powf diffuse 8 * 0.5 else brightness
  (iter, brightness)

/-- Second pass of `renderJuliaSet` (lines 312-356): lighting and colour, four bytes per
pixel into `localPixels`. -/
def secondPass (sqrtf : K → K) (powf : K → K → K) (v : ModuleView K) (heightMap : Nat → K)
    (localPixels : Nat → Nat) : Nat → Nat :=
  (List.range DISPLAY_HEIGHT).foldl (fun lp py =>
    (List.range DISPLAY_WIDTH).foldl (fun lp px =>
      let ib := shadePixel sqrtf powf v heightMap px py
      let idx := (py * DISPLAY_WIDTH + px) * 4
      let rgb := ColorPalette.getColor sqrtf v.getColorMode ib.1 v.getMaxIter ib.2
      Function.update (Function.update (Function.update (Function.update lp
        (idx + 0) rgb.1) (idx + 1) rgb.2.1) (idx + 2) rgb.2.2) (idx + 3) 255) lp)
    localPixels

/-- The method `JuliaScopeDisplay::renderJuliaSet`; `module` is `none` for a null pointer. -/
def JuliaScopeDisplay.renderJuliaSet (sqrtf : K → K) (powf : K → K → K)
    (module : Option (ModuleView K)) (d : JuliaScopeDisplay K) : JuliaScopeDisplay K :=
  match module with
  | none => d
  | some v =>
    let heightMap := firstPass v d.heightMap
    { d with heightMap := heightMap
             localPixels := secondPass sqrtf powf v heightMap d.localPixels }

/-- The throttle of `JuliaScopeDisplay::drawLayer` (lines 359-367); the drawing calls that
follow only hand `localPixels` to the host. The boolean tells whether this call invoked
`renderJuliaSet`. -/
def JuliaScopeDisplay.drawLayer (sqrtf : K → K) (powf : K → K → K)
    (module : Option (ModuleView K)) (d : JuliaScopeDisplay K) (layer : Int) :
    JuliaScopeDisplay K × Bool :=
  if layer ≠ 1 then (d, false)
  else
    -- Frame skip for performance
    let frameSkip := d.frameSkip + 1
    if frameSkip ≥ FRAME_SKIP_COUNT then
      (JuliaScopeDisplay.renderJuliaSet sqrtf powf module { d with frameSkip := 0 }, true)
    else ({ d with frameSkip := frameSkip }, false)

/-- Successive `drawLayer` calls, oldest first; each call comes with the module the display
points to at that time and the layer. Returns the final display and, per call, whether it
rendered. -/
def JuliaScopeDisplay.drawLayers (sqrtf : K → K) (powf : K → K → K)
    (d : JuliaScopeDisplay K) : List (Option (ModuleView K) × Int) → JuliaScopeDisplay K × List Bool
  | [] => (d, [])
  | c :: cs =>
    let r := JuliaScopeDisplay.drawLayer sqrtf powf c.1 d c.2
    let rest := JuliaScopeDisplay.drawLayers sqrtf powf r.1 cs
    (rest.1, r.2 :: rest.2)

/-- The module values of the specification's end-to-end scenario: `c = (-0.1, 0.1)`,
`zoom = 1`, `tilt = 0`, `maxIterations = 64`, `colorMode = 4`. -/
def scenarioView : ModuleView K :=
  { getCReal := -0.1, getCImag := 0.1, getZoom := 1, getTilt := 0,
    getMaxIter := 64, getColorMode := 4 }

end Renderer

/-! ### Properties of the oscillator -/

theorem clamp_le {K : Type} [LinearOrder K] (x a b : K) (hab : a ≤ b) : clamp x a b ≤ b := by
  unfold clamp
  exact max_le (min_le_right _ _) hab

theorem le_clamp {K : Type} [LinearOrder K] (x a b : K) : a ≤ clamp x a b := by
  unfold clamp
  exact le_max_right _ _

theorem clamp_mono {K : Type} [LinearOrder K] {x y : K} (a b : K) (h : x ≤ y) :
    clamp x a b ≤ clamp y a b := by
  unfold clamp
  exact max_le_max (min_le_min h le_rfl) le_rfl

theorem SimpleVCO.freq_nonneg (F p sr : ℝ) : 0 ≤ SimpleVCO.freq F p sr :=
  le_clamp _ _ _

theorem SimpleVCO.freq_le (F p sr : ℝ) (hsr : 0 < sr) : SimpleVCO.freq F p sr ≤ sr / 2 :=
  clamp_le _ _ _ (by positivity)

theorem SimpleVCO.nextPhase_mem (F : ℝ) (s : SimpleVCO) (a : VCOArgs)
    (h0 : 0 ≤ s.phase) (h1 : s.phase < 1) (hsr : 0 < a.sampleRate)
    (hst : a.sampleTime = 1 / a.sampleRate) :
    0 ≤ SimpleVCO.nextPhase F s a ∧ SimpleVCO.nextPhase F s a < 1 := by
  have hf0 := SimpleVCO.freq_nonneg F (SimpleVCO.pitch a) a.sampleRate
  have hf1 := SimpleVCO.freq_le F (SimpleVCO.pitch a) a.sampleRate hsr
  have hinc0 : 0 ≤ SimpleVCO.freq F (SimpleVCO.pitch a) a.sampleRate * a.sampleTime := by
    rw [hst]; positivity
  have hinc1 : SimpleVCO.freq F (SimpleVCO.pitch a) a.sampleRate * a.sampleTime ≤ 1 / 2 := by
    rw [hst, mul_one_div, div_le_iff₀ hsr]
    linarith
  unfold SimpleVCO.nextPhase
  simp only []
  split_ifs with h
  · constructor <;> linarith
  · constructor
    · linarith
    · exact lt_of_not_ge h

/-- C3: for a positive sample rate the frequency computed by `SimpleVCO::process`,
`FREQ_C4 * 2^pitch` clamped to `[0, sampleRate/2]`, is monotonically non-decreasing in the
pitch and never exceeds `sampleRate/2`; it is the frequency by which `process` advances the
phase, at the pitch `freqParam + fineParam/12 + pitchCV + fmCV*fmAmount`. -/
theorem SimpleVCO.freq_monotone_le_nyquist (FREQ_C4 sampleRate : ℝ) (hsr : 0 < sampleRate) :
    (∀ p q : ℝ, p ≤ q →
        SimpleVCO.freq FREQ_C4 p sampleRate ≤ SimpleVCO.freq FREQ_C4 q sampleRate) ∧
    (∀ p : ℝ, SimpleVCO.freq FREQ_C4 p sampleRate ≤ sampleRate / 2) ∧
    (0 ≤ FREQ_C4 → ∀ p : ℝ, SimpleVCO.freq FREQ_C4 p sampleRate
        = min (FREQ_C4 * (2 : ℝ) ^ p) (sampleRate / 2)) ∧
    (∀ (s : SimpleVCO) (a : VCOArgs), a.sampleRate = sampleRate →
        (SimpleVCO.process FREQ_C4 s a).phase
          = (let ph := s.phase + SimpleVCO.freq FREQ_C4
                (a.freqParam + a.fineParam / 12 + a.voct + a.fm * a.fmParam) sampleRate
                * a.sampleTime
             if ph ≥ 1 then ph - 1 else ph)) := by
  refine ⟨?_, ?_, ?_, ?_⟩
  · intro p q hpq
    have h2 : (2 : ℝ) ^ p ≤ (2 : ℝ) ^ q :=
      Real.rpow_le_rpow_of_exponent_le (by norm_num) hpq
    have hp : (0 : ℝ) < (2 : ℝ) ^ p := Real.rpow_pos_of_pos (by norm_num) p
    have hq : (0 : ℝ) < (2 : ℝ) ^ q := Real.rpow_pos_of_pos (by norm_num) q
    rcases le_total 0 FREQ_C4 with hF | hF
    · exact clamp_mono _ _ (mul_le_mul_of_nonneg_left h2 hF)
    · have e : ∀ r : ℝ, 0 < (2 : ℝ) ^ r → SimpleVCO.freq FREQ_C4 r sampleRate = 0 := by
        intro r hr
        have hneg : FREQ_C4 * (2 : ℝ) ^ r ≤ 0 := mul_nonpos_of_nonpos_of_nonneg hF hr.le
        unfold SimpleVCO.freq clamp
        exact max_eq_right ((min_le_left _ _).trans hneg)
      rw [e p hp, e q hq]
  · intro p
    exact SimpleVCO.freq_le _ _ _ hsr
  · intro hF p
    have hp : (0 : ℝ) < (2 : ℝ) ^ p := Real.rpow_pos_of_pos (by norm_num) p
    unfold SimpleVCO.freq clamp
    exact max_eq_left (le_min (mul_nonneg hF hp.le) (by positivity))
  · intro s a ha
    subst ha
    rfl

/-- Instance of C3 at 44.1 kHz. -/
theorem SimpleVCO.freq_monotone_le_nyquist_witness :
    (0 : ℝ) < 44100 ∧ SimpleVCO.freq 261.6256 10 44100 ≤ 44100 / 2 :=
  ⟨by norm_num, (SimpleVCO.freq_monotone_le_nyquist 261.6256 44100 (by norm_num)).2.1 10⟩

/-- C4: starting from `phase = 0`, after any sequence of `process` calls, each with a positive
sample rate and `sampleTime = 1/sampleRate` and otherwise arbitrary knob and CV values, the
phase is in `[0, 1)`; the only wrap the code performs is one conditional subtraction of 1. -/
theorem SimpleVCO.phase_invariant (FREQ_C4 : ℝ) (calls : List VCOArgs)
    (hcalls : ∀ a ∈ calls, 0 < a.sampleRate ∧ a.sampleTime = 1 / a.sampleRate) :
    0 ≤ (SimpleVCO.run FREQ_C4 SimpleVCO.init calls).phase ∧
      (SimpleVCO.run FREQ_C4 SimpleVCO.init calls).phase < 1 := by
  have key : ∀ (l : List VCOArgs) (s : SimpleVCO),
      (∀ a ∈ l, 0 < a.sampleRate ∧ a.sampleTime = 1 / a.sampleRate) →
      0 ≤ s.phase → s.phase < 1 →
      0 ≤ (SimpleVCO.run FREQ_C4 s l).phase ∧ (SimpleVCO.run FREQ_C4 s l).phase < 1 := by
    intro l
    induction l with
    | nil => intro s _ h0 h1; exact ⟨h0, h1⟩
    | cons a l ih =>
      intro s hl h0 h1
      have ha := hl a (List.mem_cons_self a l)
      have hstep := SimpleVCO.nextPhase_mem FREQ_C4 s a h0 h1 ha.1 ha.2
      exact ih (SimpleVCO.process FREQ_C4 s a)
        (fun b hb => hl b (List.mem_cons_of_mem a hb)) hstep.1 hstep.2
  exact key calls SimpleVCO.init hcalls (le_refl (0 : ℝ)) (by norm_num [SimpleVCO.init])


/-- C10: whenever the phase `process` arrives at is in `[0, 1)`, each waveform it emits on a
connected output is the stated function of that phase and lies in `[-5, 5]`:
sine `5 sin(2 pi phase)`, triangle `5 (4 |phase - 0.5| - 1)`, saw `5 (2 phase - 1)`,
square `+5` if `phase < 0.5` else `-5`. -/
theorem SimpleVCO.outputs_in_range (FREQ_C4 : ℝ) (s : SimpleVCO) (a : VCOArgs)
    (h0 : 0 ≤ (SimpleVCO.process FREQ_C4 s a).phase)
    (h1 : (SimpleVCO.process FREQ_C4 s a).phase < 1) :
    (a.sineConnected = true →
      (SimpleVCO.process FREQ_C4 s a).sineOut
          = 5 * Real.sin (2 * Real.pi * (SimpleVCO.process FREQ_C4 s a).phase) ∧
        -5 ≤ (SimpleVCO.process FREQ_C4 s a).sineOut ∧
        (SimpleVCO.process FREQ_C4 s a).sineOut ≤ 5) ∧
    (a.triConnected = true →
      (SimpleVCO.process FREQ_C4 s a).triOut
          = 5 * (4 * |(SimpleVCO.process FREQ_C4 s a).phase - 0.5| - 1) ∧
        -5 ≤ (SimpleVCO.process FREQ_C4 s a).triOut ∧
        (SimpleVCO.process FREQ_C4 s a).triOut ≤ 5) ∧
    (a.sawConnected = true →
      (SimpleVCO.process FREQ_C4 s a).sawOut
          = 5 * (2 * (SimpleVCO.process FREQ_C4 s a).phase - 1) ∧
        -5 ≤ (SimpleVCO.process FREQ_C4 s a).sawOut ∧
        (SimpleVCO.process FREQ_C4 s a).sawOut ≤ 5) ∧
    (a.squareConnected = true →
      (SimpleVCO.process FREQ_C4 s a).squareOut
          = (if (SimpleVCO.process FREQ_C4 s a).phase < 0.5 then 5 else -5) ∧
        -5 ≤ (SimpleVCO.process FREQ_C4 s a).squareOut ∧
        (SimpleVCO.process FREQ_C4 s a).squareOut ≤ 5) := by
  have hph : (SimpleVCO.process FREQ_C4 s a).phase = SimpleVCO.nextPhase FREQ_C4 s a := rfl
  rw [hph] at h0 h1 ⊢
  refine ⟨?_, ?_, ?_, ?_⟩
  · intro hc
    have e : (SimpleVCO.process FREQ_C4 s a).sineOut
        = 5 * Real.sin (2 * Real.pi * SimpleVCO.nextPhase FREQ_C4 s a) := by
      simp only [SimpleVCO.process, hc, if_true]
    rw [e]
    have hs1 := Real.neg_one_le_sin (2 * Real.pi * SimpleVCO.nextPhase FREQ_C4 s a)
    have hs2 := Real.sin_le_one (2 * Real.pi * SimpleVCO.nextPhase FREQ_C4 s a)
    exact ⟨rfl, by linarith, by linarith⟩
  · intro hc
    have e : (SimpleVCO.process FREQ_C4 s a).triOut
        = 5 * (4 * |SimpleVCO.nextPhase FREQ_C4 s a - 0.5| - 1) := by
      simp only [SimpleVCO.process, hc, if_true]
    rw [e]
    have ha : |SimpleVCO.nextPhase FREQ_C4 s a - 0.5| ≤ 1 / 2 := by
      rw [abs_le]
      constructor <;> norm_num <;> linarith
    have hb := abs_nonneg (SimpleVCO.nextPhase FREQ_C4 s a - 0.5)
    exact ⟨rfl, by linarith, by linarith⟩
  · intro hc
    have e : (SimpleVCO.process FREQ_C4 s a).sawOut
        = 5 * (2 * SimpleVCO.nextPhase FREQ_C4 s a - 1) := by
      simp only [SimpleVCO.process, hc, if_true]
    rw [e]
    exact ⟨rfl, by linarith, by linarith⟩
  · intro hc
    have e : (SimpleVCO.process FREQ_C4 s a).squareOut
        = 5 * (if SimpleVCO.nextPhase FREQ_C4 s a < 0.5 then 1 else -1) := by
      simp only [SimpleVCO.process, hc, if_true]
    rw [e]
    split_ifs <;> norm_num

/-- Instance of C10: the first call on a fresh oscillator at 44.1 kHz with every output
connected. -/
theorem SimpleVCO.outputs_in_range_witness :
    (0 ≤ (SimpleVCO.process 261.6256 SimpleVCO.init
        ⟨44100, 1 / 44100, 0, 0, 0, 0, 0, true, true, true, true⟩).phase ∧
      (SimpleVCO.process 261.6256 SimpleVCO.init
        ⟨44100, 1 / 44100, 0, 0, 0, 0, 0, true, true, true, true⟩).phase < 1) ∧
    -5 ≤ (SimpleVCO.process 261.6256 SimpleVCO.init
        ⟨44100, 1 / 44100, 0, 0, 0, 0, 0, true, true, true, true⟩).triOut ∧
    (SimpleVCO.process 261.6256 SimpleVCO.init
        ⟨44100, 1 / 44100, 0, 0, 0, 0, 0, true, true, true, true⟩).triOut ≤ 5 :=
  have hp := SimpleVCO.nextPhase_mem 261.6256 SimpleVCO.init
    ⟨44100, 1 / 44100, 0, 0, 0, 0, 0, true, true, true, true⟩
    (le_refl (0 : ℝ)) (by norm_num [SimpleVCO.init]) (by norm_num) rfl
  ⟨hp, ((SimpleVCO.outputs_in_range 261.6256 SimpleVCO.init
    ⟨44100, 1 / 44100, 0, 0, 0, 0, 0, true, true, true, true⟩ hp.1 hp.2).2.1 rfl).2⟩

/-- Instance of C4: two calls at 44.1 kHz, the second with a pitch CV of 20 octaves. -/
theorem SimpleVCO.phase_invariant_witness :
    (∀ a ∈ [(⟨44100, 1 / 44100, 0, 0, 0, 0, 0, true, true, true, true⟩ : VCOArgs),
        ⟨44100, 1 / 44100, 3, 0, 0, 20, 0, true, false, true, false⟩],
      0 < a.sampleRate ∧ a.sampleTime = 1 / a.sampleRate) ∧
    0 ≤ (SimpleVCO.run 261.6256 SimpleVCO.init
      [⟨44100, 1 / 44100, 0, 0, 0, 0, 0, true, true, true, true⟩,
        ⟨44100, 1 / 44100, 3, 0, 0, 20, 0, true, false, true, false⟩]).phase ∧
    (SimpleVCO.run 261.6256 SimpleVCO.init
      [⟨44100, 1 / 44100, 0, 0, 0, 0, 0, true, true, true, true⟩,
        ⟨44100, 1 / 44100, 3, 0, 0, 20, 0, true, false, true, false⟩]).phase < 1 :=
  have h : ∀ a ∈ [(⟨44100, 1 / 44100, 0, 0, 0, 0, 0, true, true, true, true⟩ : VCOArgs),
      ⟨44100, 1 / 44100, 3, 0, 0, 20, 0, true, false, true, false⟩],
      0 < a.sampleRate ∧ a.sampleTime = 1 / a.sampleRate := by
    intro a ha
    simp only [List.mem_cons, List.mem_singleton, List.not_mem_nil, or_false] at ha
    rcases ha with rfl | rfl <;> exact ⟨by norm_num, rfl⟩
  ⟨h, SimpleVCO.phase_invariant 261.6256 _ h⟩

/-! ### Loops that fill an array block by block -/

theorem foldl_range_blocks {α : Type} (B base : Nat) (step : (Nat → α) → Nat → (Nat → α))
    (val : Nat → α) (n : Nat)
    (hstep : ∀ (hm : Nat → α) (i j : Nat), i < n →
      step hm i j = if (base + i) * B ≤ j ∧ j < (base + i + 1) * B then val j else hm j)
    (hm : Nat → α) (j : Nat) :
    (List.range n).foldl step hm j
      = if base * B ≤ j ∧ j < (base + n) * B then val j else hm j := by
  have key : ∀ m, m ≤ n → (List.range m).foldl step hm j
      = if base * B ≤ j ∧ j < (base + m) * B then val j else hm j := by
    intro m
    induction m with
    | zero =>
      intro _
      have : ¬ (base * B ≤ j ∧ j < (base + 0) * B) := by
        rintro ⟨h1, h2⟩
        simp only [Nat.add_zero] at h2
        omega
      rw [if_neg this]
      rfl
    | succ m ih =>
      intro hm'
      rw [List.range_succ, List.foldl_append, List.foldl_cons, List.foldl_nil,
        hstep _ m j (by omega), ih (by omega)]
      have e1 : (base + m + 1) * B = (base + m) * B + B := by ring
      have e2 : (base + (m + 1)) * B = (base + m) * B + B := by ring
      have e3 : base * B ≤ (base + m) * B := Nat.mul_le_mul_right B (Nat.le_add_right base m)
      rw [e1, e2]
      by_cases c1 : (base + m) * B ≤ j ∧ j < (base + m) * B + B
      · have c2 : base * B ≤ j ∧ j < (base + m) * B + B := ⟨by omega, c1.2⟩
        rw [if_pos c1, if_pos c2]
      · rw [if_neg c1]
        by_cases c3 : base * B ≤ j ∧ j < (base + m) * B
        · have c4 : base * B ≤ j ∧ j < (base + m) * B + B := ⟨c3.1, by omega⟩
          rw [if_pos c3, if_pos c4]
        · have c4 : ¬ (base * B ≤ j ∧ j < (base + m) * B + B) := by
            rintro ⟨h1, h2⟩
            by_cases c5 : (base + m) * B ≤ j
            · exact c1 ⟨c5, h2⟩
            · exact c3 ⟨h1, by omega⟩
          rw [if_neg c3, if_neg c4]
  exact key n le_rfl

/-- What the first pass stores for pixel `(px, py)`: the final `iter` over `maxIter`. -/
theorem firstPass_apply {K : Type} [LinearOrderedField K] (v : ModuleView K) (hm : Nat → K)
    (px py : Nat)
    (hpx : px < DISPLAY_WIDTH) (hpy : py < DISPLAY_HEIGHT) :
    firstPass v hm (py * DISPLAY_WIDTH + px)
      = ((escapeIter v.getCReal v.getCImag v.getMaxIter (pixelX0 v.getZoom px)
            (pixelY0 v.getZoom v.getTilt py) 0 : Int) : K) / (v.getMaxIter : K) := by
  have hW : 0 < DISPLAY_WIDTH := by decide
  unfold firstPass
  rw [foldl_range_blocks DISPLAY_WIDTH 0 _ (fun j =>
    ((escapeIter v.getCReal v.getCImag v.getMaxIter (pixelX0 v.getZoom (j % DISPLAY_WIDTH))
      (pixelY0 v.getZoom v.getTilt (j / DISPLAY_WIDTH)) 0 : Int) : K) / (v.getMaxIter : K))]
  · have hj : 0 * DISPLAY_WIDTH ≤ py * DISPLAY_WIDTH + px ∧
        py * DISPLAY_WIDTH + px < (0 + DISPLAY_HEIGHT) * DISPLAY_WIDTH := by
      constructor
      · omega
      · calc py * DISPLAY_WIDTH + px < py * DISPLAY_WIDTH + DISPLAY_WIDTH := by omega
          _ = (py + 1) * DISPLAY_WIDTH := by ring
          _ ≤ (0 + DISPLAY_HEIGHT) * DISPLAY_WIDTH :=
            Nat.mul_le_mul_right _ (by omega)
    rw [if_pos hj]
    have e1 : (py * DISPLAY_WIDTH + px) % DISPLAY_WIDTH = px := by
      rw [Nat.add_comm, Nat.add_mul_mod_self_right, Nat.mod_eq_of_lt hpx]
    have e2 : (py * DISPLAY_WIDTH + px) / DISPLAY_WIDTH = py := by
      rw [Nat.add_comm, Nat.add_mul_div_right _ _ hW, Nat.div_eq_of_lt hpx, Nat.zero_add]
    simp only [e1, e2]
  · intro hm' i j hi
    rw [foldl_range_blocks 1 (i * DISPLAY_WIDTH) _ (fun j =>
      ((escapeIter v.getCReal v.getCImag v.getMaxIter (pixelX0 v.getZoom (j % DISPLAY_WIDTH))
        (pixelY0 v.getZoom v.getTilt (j / DISPLAY_WIDTH)) 0 : Int) : K) / (v.getMaxIter : K))]
    · have e : (0 + i + 1) * DISPLAY_WIDTH = (i * DISPLAY_WIDTH + DISPLAY_WIDTH) * 1 := by ring
      have e' : (0 + i) * DISPLAY_WIDTH = i * DISPLAY_WIDTH * 1 := by ring
      rw [e, e']
    · intro hm'' p j' hp
      simp only [Nat.mul_one]
      by_cases c : j' = i * DISPLAY_WIDTH + p
      · subst c
        have e1 : (i * DISPLAY_WIDTH + p) % DISPLAY_WIDTH = p := by
          rw [Nat.add_comm, Nat.add_mul_mod_self_right, Nat.mod_eq_of_lt hp]
        have e2 : (i * DISPLAY_WIDTH + p) / DISPLAY_WIDTH = i := by
          rw [Nat.add_comm, Nat.add_mul_div_right _ _ hW, Nat.div_eq_of_lt hp, Nat.zero_add]
        rw [Function.update_same, if_pos ⟨le_rfl, by omega⟩, e1, e2]
      · rw [Function.update_noteq c, if_neg (by omega)]

/-- What the second pass stores for pixel `(px, py)`: the palette colour of the shaded pixel in
bytes 0-2 and 255 in byte 3. -/
theorem secondPass_apply {K : Type} [LinearOrderedField K] [FloorRing K] (sqrtf : K → K)
    (powf : K → K → K) (v : ModuleView K) (hm : Nat → K) (lp : Nat → Nat) (px py : Nat)
    (hpx : px < DISPLAY_WIDTH) (hpy : py < DISPLAY_HEIGHT) :
    let rgb := ColorPalette.getColor sqrtf v.getColorMode (shadePixel sqrtf powf v hm px py).1
      v.getMaxIter (shadePixel sqrtf powf v hm px py).2
    secondPass sqrtf powf v hm lp ((py * DISPLAY_WIDTH + px) * 4 + 0) = rgb.1 ∧
    secondPass sqrtf powf v hm lp ((py * DISPLAY_WIDTH + px) * 4 + 1) = rgb.2.1 ∧
    secondPass sqrtf powf v hm lp ((py * DISPLAY_WIDTH + px) * 4 + 2) = rgb.2.2 ∧
    secondPass sqrtf powf v hm lp ((py * DISPLAY_WIDTH + px) * 4 + 3) = 255 := by
  have hW : 0 < DISPLAY_WIDTH := by decide
  let col : Nat → Nat × Nat × Nat := fun p =>
    ColorPalette.getColor sqrtf v.getColorMode
      (shadePixel sqrtf powf v hm (p % DISPLAY_WIDTH) (p / DISPLAY_WIDTH)).1 v.getMaxIter
      (shadePixel sqrtf powf v hm (p % DISPLAY_WIDTH) (p / DISPLAY_WIDTH)).2
  let val : Nat → Nat := fun j =>
    if j % 4 = 0 then (col (j / 4)).1 else if j % 4 = 1 then (col (j / 4)).2.1
    else if j % 4 = 2 then (col (j / 4)).2.2 else 255
  have main : ∀ j, secondPass sqrtf powf v hm lp j
      = if 0 * (DISPLAY_WIDTH * 4) ≤ j ∧ j < (0 + DISPLAY_HEIGHT) * (DISPLAY_WIDTH * 4)
        then val j else lp j := by
    intro j
    unfold secondPass
    apply foldl_range_blocks (DISPLAY_WIDTH * 4) 0 _ val
    intro lp' i j hi
    rw [foldl_range_blocks 4 (i * DISPLAY_WIDTH) _ val]
    · have e : (0 + i + 1) * (DISPLAY_WIDTH * 4) = (i * DISPLAY_WIDTH + DISPLAY_WIDTH) * 4 := by
        ring
      have e' : (0 + i) * (DISPLAY_WIDTH * 4) = i * DISPLAY_WIDTH * 4 := by ring
      rw [e, e']
    · intro lp'' p j' hp
      have e1 : (i * DISPLAY_WIDTH + p) % DISPLAY_WIDTH = p := by
        rw [Nat.add_comm, Nat.add_mul_mod_self_right, Nat.mod_eq_of_lt hp]
      have e2 : (i * DISPLAY_WIDTH + p) / DISPLAY_WIDTH = i := by
        rw [Nat.add_comm, Nat.add_mul_div_right _ _ hW, Nat.div_eq_of_lt hp, Nat.zero_add]
      have hcol : col (i * DISPLAY_WIDTH + p) = ColorPalette.getColor sqrtf v.getColorMode
          (shadePixel sqrtf powf v hm p i).1 v.getMaxIter (shadePixel sqrtf powf v hm p i).2 := by
        simp only [col, e1, e2]
      rw [← hcol]
      generalize i * DISPLAY_WIDTH + p = q
      by_cases c3 : j' = q * 4 + 3
      · subst c3
        have hq : (q * 4 + 3) / 4 = q := by omega
        have hr : (q * 4 + 3) % 4 = 3 := by omega
        rw [Function.update_same, if_pos ⟨by omega, by omega⟩]
        simp only [val, hq, hr]
        simp
      · rw [Function.update_noteq c3]
        by_cases c2 : j' = q * 4 + 2
        · subst c2
          have hq : (q * 4 + 2) / 4 = q := by omega
          have hr : (q * 4 + 2) % 4 = 2 := by omega
          rw [Function.update_same, if_pos ⟨by omega, by omega⟩]
          simp only [val, hq, hr]
          simp
        · rw [Function.update_noteq c2]
          by_cases c1 : j' = q * 4 + 1
          · subst c1
            have hq : (q * 4 + 1) / 4 = q := by omega
            have hr : (q * 4 + 1) % 4 = 1 := by omega
            rw [Function.update_same, if_pos ⟨by omega, by omega⟩]
            simp only [val, hq, hr]
            simp
          · rw [Function.update_noteq c1]
            by_cases c0 : j' = q * 4 + 0
            · subst c0
              have hq : (q * 4 + 0) / 4 = q := by omega
              have hr : (q * 4 + 0) % 4 = 0 := by omega
              rw [Function.update_same, if_pos ⟨by omega, by omega⟩]
              simp only [val, hq, hr]
              simp
            · rw [Function.update_noteq c0, if_neg (by omega)]
  have hrange : ∀ c, c < 4 → 0 * (DISPLAY_WIDTH * 4) ≤ (py * DISPLAY_WIDTH + px) * 4 + c ∧
      (py * DISPLAY_WIDTH + px) * 4 + c < (0 + DISPLAY_HEIGHT) * (DISPLAY_WIDTH * 4) := by
    intro c hc
    constructor
    · omega
    · have h1 : py * DISPLAY_WIDTH + px < py * DISPLAY_WIDTH + DISPLAY_WIDTH := by omega
      have h2 : (py + 1) * DISPLAY_WIDTH ≤ DISPLAY_HEIGHT * DISPLAY_WIDTH :=
        Nat.mul_le_mul_right _ (by omega)
      have h3 : (py + 1) * DISPLAY_WIDTH = py * DISPLAY_WIDTH + DISPLAY_WIDTH := by ring
      have h4 : (0 + DISPLAY_HEIGHT) * (DISPLAY_WIDTH * 4) = DISPLAY_HEIGHT * DISPLAY_WIDTH * 4 := by
        ring
      omega
  have e1 : (py * DISPLAY_WIDTH + px) % DISPLAY_WIDTH = px := by
    rw [Nat.add_comm, Nat.add_mul_mod_self_right, Nat.mod_eq_of_lt hpx]
  have e2 : (py * DISPLAY_WIDTH + px) / DISPLAY_WIDTH = py := by
    rw [Nat.add_comm, Nat.add_mul_div_right _ _ hW, Nat.div_eq_of_lt hpx, Nat.zero_add]
  have hcol : col (py * DISPLAY_WIDTH + px) = ColorPalette.getColor sqrtf v.getColorMode
      (shadePixel sqrtf powf v hm px py).1 v.getMaxIter (shadePixel sqrtf powf v hm px py).2 := by
    simp only [col, e1, e2]
  intro rgb
  have hrgb : rgb = col (py * DISPLAY_WIDTH + px) := hcol.symm
  rw [hrgb]
  generalize py * DISPLAY_WIDTH + px = q at hrange ⊢
  refine ⟨?_, ?_, ?_, ?_⟩
  · rw [main, if_pos (hrange 0 (by omega))]
    have hq : (q * 4 + 0) / 4 = q := by omega
    have hr : (q * 4 + 0) % 4 = 0 := by omega
    simp only [val, hq, hr]
    simp
  · rw [main, if_pos (hrange 1 (by omega))]
    have hq : (q * 4 + 1) / 4 = q := by omega
    have hr : (q * 4 + 1) % 4 = 1 := by omega
    simp only [val, hq, hr]
    simp
  · rw [main, if_pos (hrange 2 (by omega))]
    have hq : (q * 4 + 2) / 4 = q := by omega
    have hr : (q * 4 + 2) % 4 = 2 := by omega
    simp only [val, hq, hr]
    simp
  · rw [main, if_pos (hrange 3 (by omega))]
    have hq : (q * 4 + 3) / 4 = q := by omega
    have hr : (q * 4 + 3) % 4 = 3 := by omega
    simp only [val, hq, hr]
    simp

/-! ### The escape-time loop -/

theorem escapeIter_step {K : Type} [LinearOrderedField K] (cReal cImag : K) (maxIter : Int)
    (x y : K) (iter : Int) (h : x * x + y * y ≤ 4 ∧ iter < maxIter) :
    escapeIter cReal cImag maxIter x y iter
      = escapeIter cReal cImag maxIter (x * x - y * y + cReal) (2 * x * y + cImag) (iter + 1) := by
  rw [escapeIter, if_pos h]

theorem escapeIter_stop {K : Type} [LinearOrderedField K] (cReal cImag : K) (maxIter : Int)
    (x y : K) (iter : Int) (h : ¬ (x * x + y * y ≤ 4 ∧ iter < maxIter)) :
    escapeIter cReal cImag maxIter x y iter = iter := by
  rw [escapeIter, if_neg h]

/-- A loop whose point never leaves a region inside the disc of radius 2 runs to `maxIter`. -/
theorem escapeIter_trapped {K : Type} [LinearOrderedField K] (cReal cImag : K) (maxIter : Int)
    (P : K → K → Prop)
    (hP : ∀ x y, P x y → x * x + y * y ≤ 4 ∧ P (x * x - y * y + cReal) (2 * x * y + cImag)) :
    ∀ (n : Nat) (x y : K) (iter : Int), (maxIter - iter).toNat = n → iter ≤ maxIter → P x y →
      escapeIter cReal cImag maxIter x y iter = maxIter := by
  intro n
  induction n with
  | zero =>
    intro x y iter hn hle _
    rw [escapeIter_stop _ _ _ _ _ _ (by rintro ⟨_, h⟩; omega)]
    omega
  | succ n ih =>
    intro x y iter hn hle hxy
    rw [escapeIter_step _ _ _ _ _ _ ⟨(hP x y hxy).1, by omega⟩]
    exact ih _ _ _ (by omega) (by omega) (hP x y hxy).2

/-! ### The palette and the renderer -/

theorem ColorPalette.getColor_black_of_ge {K : Type} [LinearOrderedField K] [FloorRing K]
    (sqrtf : K → K) (mode iter maxIter : Int) (brightness : K) (h : iter ≥ maxIter) :
    ColorPalette.getColor sqrtf mode iter maxIter brightness = (0, 0, 0) := by
  unfold ColorPalette.getColor
  rw [if_pos h]

/-- C2: for every mode (values outside 0..4 included), every brightness and every
`iter >= maxIter`, `ColorPalette::getColor` returns `r = g = b = 0`; in particular
`getColor(mode, maxIter, maxIter, brightness)` is black for every mode. -/
theorem ColorPalette.getColor_black {K : Type} [LinearOrderedField K] [FloorRing K]
    (sqrtf : K → K) (mode iter maxIter : Int) (brightness : K) (h : iter ≥ maxIter) :
    ColorPalette.getColor sqrtf mode iter maxIter brightness = (0, 0, 0) ∧
      ColorPalette.getColor sqrtf mode maxIter maxIter brightness = (0, 0, 0) := by
  exact ⟨ColorPalette.getColor_black_of_ge sqrtf mode iter maxIter brightness h,
    ColorPalette.getColor_black_of_ge sqrtf mode maxIter maxIter brightness (le_refl maxIter)⟩

/-- Instance of C2: mode 7, `iter = 70`, `maxIter = 64`, brightness 1/2. -/
theorem ColorPalette.getColor_black_witness :
    (70 : Int) ≥ 64 ∧
      ColorPalette.getColor (fun x : ℚ => x) 7 70 64 (1 / 2) = (0, 0, 0) :=
  ⟨by decide, (ColorPalette.getColor_black (fun x : ℚ => x) 7 70 64 (1 / 2) (by decide)).1⟩

theorem truncToInt_intCast {K : Type} [LinearOrderedField K] [FloorRing K] (n : Int) :
    truncToInt (n : K) = n := by
  unfold truncToInt
  split_ifs
  · exact Int.floor_intCast n
  · exact Int.ceil_intCast n

/-- The box `|x| <= 3/10`, `|y| <= 3/10` is mapped into itself by `z -> z^2 + (-0.1 + 0.1 i)`
and lies inside the disc of radius 2. -/
theorem scenario_box_invariant {K : Type} [LinearOrderedField K] (x y : K)
    (h : (-(3 / 10) ≤ x ∧ x ≤ 3 / 10) ∧ (-(3 / 10) ≤ y ∧ y ≤ 3 / 10)) :
    x * x + y * y ≤ 4 ∧
      ((-(3 / 10) ≤ x * x - y * y + (-0.1) ∧ x * x - y * y + (-0.1) ≤ 3 / 10) ∧
        (-(3 / 10) ≤ 2 * x * y + 0.1 ∧ 2 * x * y + 0.1 ≤ 3 / 10)) := by
  obtain ⟨⟨hx1, hx2⟩, ⟨hy1, hy2⟩⟩ := h
  have hxx : x * x ≤ 9 / 100 := by nlinarith
  have hyy : y * y ≤ 9 / 100 := by nlinarith
  have hxx0 : 0 ≤ x * x := mul_self_nonneg x
  have hyy0 : 0 ≤ y * y := mul_self_nonneg y
  have h1 : x * y ≤ 9 / 100 := by nlinarith
  have h2 : -(9 / 100) ≤ x * y := by nlinarith
  have e1 : (0.1 : K) = 1 / 10 := by norm_num
  rw [e1]
  refine ⟨by linarith, ⟨by linarith, by linarith⟩, ⟨by linarith, by linarith⟩⟩

theorem renderJuliaSet_some {K : Type} [LinearOrderedField K] [FloorRing K]
    (sqrtf : K → K) (powf : K → K → K) (v : ModuleView K) (d : JuliaScopeDisplay K) :
    (JuliaScopeDisplay.renderJuliaSet sqrtf powf (some v) d).heightMap
        = firstPass v d.heightMap ∧
      (JuliaScopeDisplay.renderJuliaSet sqrtf powf (some v) d).localPixels
        = secondPass sqrtf powf v (firstPass v d.heightMap) d.localPixels ∧
      (JuliaScopeDisplay.renderJuliaSet sqrtf powf (some v) d).frameSkip = d.frameSkip := by
  simp only [JuliaScopeDisplay.renderJuliaSet, and_self]

theorem scenario_centre_iter {K : Type} [LinearOrderedField K] (py : Nat)
    (hpy : py = 77 ∨ py = 78) :
    escapeIter (-0.1 : K) 0.1 64 (pixelX0 1 100) (pixelY0 1 0 py) 0 = 64 := by
  have hbox : (-(3 / 10) ≤ pixelX0 (1 : K) 100 ∧ pixelX0 (1 : K) 100 ≤ 3 / 10) ∧
      (-(3 / 10) ≤ pixelY0 (1 : K) 0 py ∧ pixelY0 (1 : K) 0 py ≤ 3 / 10) := by
    rcases hpy with h | h <;> subst h <;>
      norm_num [pixelX0, pixelY0, DISPLAY_WIDTH, DISPLAY_HEIGHT]
  exact escapeIter_trapped (-0.1 : K) 0.1 64
    (fun x y => (-(3 / 10) ≤ x ∧ x ≤ 3 / 10) ∧ (-(3 / 10) ≤ y ∧ y ≤ 3 / 10))
    (fun x y h => scenario_box_invariant x y h) 64 _ _ 0 (by decide) (by decide) hbox

theorem scenario_centre_height {K : Type} [LinearOrderedField K] (hm : Nat → K) (py : Nat)
    (hpy : py = 77 ∨ py = 78) :
    firstPass (scenarioView : ModuleView K) hm (py * 200 + 100) = 1 := by
  have hpyH : py < DISPLAY_HEIGHT := by
    rcases hpy with h | h <;> subst h <;> decide
  have := firstPass_apply (scenarioView : ModuleView K) hm 100 py (by decide) hpyH
  simp only [DISPLAY_WIDTH] at this
  rw [this]
  show ((escapeIter (-0.1 : K) 0.1 64 (pixelX0 1 100) (pixelY0 1 0 py) 0 : Int) : K)
    / ((64 : Int) : K) = 1
  rw [scenario_centre_iter py hpy]
  norm_num

/-- C7: the end-to-end render at `maxIterations = 64`, `colorMode = 4`, `c = (-0.1, 0.1)`,
`zoom = 1`, `tilt = 0` on the 200x155 grid, from any display state and for any `sqrt` and
`pow`: at the centre pixels `(100, 77)` and `(100, 78)` the loop reaches `iter = maxIter = 64`,
the stored height is 1 and the pixel is written as black `(0, 0, 0, 255)`; at each of the four
corner pixels `(0,0)`, `(199,0)`, `(0,154)`, `(199,154)` the escape-time count is below 10
(it is 0) and the stored height is `iter / 64`. -/
theorem renderJuliaSet_scenario {K : Type} [LinearOrderedField K] [FloorRing K]
    (sqrtf : K → K) (powf : K → K → K) (d : JuliaScopeDisplay K) :
    (∀ py, py = 77 ∨ py = 78 →
      escapeIter (-0.1 : K) 0.1 64 (pixelX0 1 100) (pixelY0 1 0 py) 0 = 64 ∧
      (JuliaScopeDisplay.renderJuliaSet sqrtf powf (some scenarioView) d).heightMap
        (py * 200 + 100) = 1 ∧
      (JuliaScopeDisplay.renderJuliaSet sqrtf powf (some scenarioView) d).localPixels
        ((py * 200 + 100) * 4 + 0) = 0 ∧
      (JuliaScopeDisplay.renderJuliaSet sqrtf powf (some scenarioView) d).localPixels
        ((py * 200 + 100) * 4 + 1) = 0 ∧
      (JuliaScopeDisplay.renderJuliaSet sqrtf powf (some scenarioView) d).localPixels
        ((py * 200 + 100) * 4 + 2) = 0 ∧
      (JuliaScopeDisplay.renderJuliaSet sqrtf powf (some scenarioView) d).localPixels
        ((py * 200 + 100) * 4 + 3) = 255) ∧
    (∀ px py, (px = 0 ∨ px = 199) → (py = 0 ∨ py = 154) →
      escapeIter (-0.1 : K) 0.1 64 (pixelX0 1 px) (pixelY0 1 0 py) 0 < 10 ∧
      (JuliaScopeDisplay.renderJuliaSet sqrtf powf (some scenarioView) d).heightMap
          (py * 200 + px)
        = ((escapeIter (-0.1 : K) 0.1 64 (pixelX0 1 px) (pixelY0 1 0 py) 0 : Int) : K) / 64) := by
  have hd'h := (renderJuliaSet_some sqrtf powf scenarioView d).1
  have hd'p := (renderJuliaSet_some sqrtf powf scenarioView d).2.1
  rw [hd'h, hd'p]
  constructor
  · intro py hpy
    have hpyH : py < DISPLAY_HEIGHT := by
      rcases hpy with h | h <;> subst h <;> decide
    have hh := scenario_centre_height d.heightMap py hpy
    have hshade : (shadePixel sqrtf powf scenarioView
        (firstPass scenarioView d.heightMap) 100 py).1 = 64 := by
      show truncToInt (firstPass scenarioView d.heightMap (py * DISPLAY_WIDTH + 100)
        * ((64 : Int) : K)) = 64
      simp only [DISPLAY_WIDTH]
      rw [hh, one_mul, truncToInt_intCast]
    have hpix := secondPass_apply sqrtf powf scenarioView (firstPass scenarioView d.heightMap)
      d.localPixels 100 py (by decide) hpyH
    simp only [DISPLAY_WIDTH] at hpix
    rw [hshade] at hpix
    have hblack := (ColorPalette.getColor_black_of_ge sqrtf (scenarioView : ModuleView K).getColorMode
      64 (scenarioView : ModuleView K).getMaxIter
      (shadePixel sqrtf powf scenarioView (firstPass scenarioView d.heightMap) 100 py).2
      (le_refl (64 : Int)))
    rw [hblack] at hpix
    exact ⟨scenario_centre_iter py hpy, hh, hpix.1, hpix.2.1, hpix.2.2.1, hpix.2.2.2⟩
  · intro px py hpx hpy
    have hpxW : px < DISPLAY_WIDTH := by
      rcases hpx with h | h <;> subst h <;> decide
    have hpyH : py < DISPLAY_HEIGHT := by
      rcases hpy with h | h <;> subst h <;> decide
    have hout : ¬ (pixelX0 (1 : K) px * pixelX0 (1 : K) px
        + pixelY0 (1 : K) 0 py * pixelY0 (1 : K) 0 py ≤ 4 ∧ (0 : Int) < 64) := by
      rintro ⟨h, _⟩
      revert h
      rcases hpx with h | h <;> rcases hpy with h' | h' <;> subst h <;> subst h' <;>
        norm_num [pixelX0, pixelY0, DISPLAY_WIDTH, DISPLAY_HEIGHT]
    have hiter : escapeIter (-0.1 : K) 0.1 64 (pixelX0 1 px) (pixelY0 1 0 py) 0 = 0 :=
      escapeIter_stop _ _ _ _ _ _ hout
    constructor
    · rw [hiter]; decide
    · have := firstPass_apply (scenarioView : ModuleView K) d.heightMap px py hpxW hpyH
      simp only [DISPLAY_WIDTH] at this
      rw [this]
      show ((escapeIter (-0.1 : K) 0.1 64 (pixelX0 1 px) (pixelY0 1 0 py) 0 : Int) : K)
        / ((64 : Int) : K) = _
      norm_num

/-- Throttle state after any history of `drawLayer` calls on a fresh display: `frameSkip` is
the parity of the number of layer-1 calls made so far. -/
theorem drawLayers_frameSkip {K : Type} [LinearOrderedField K] [FloorRing K]
    (sqrtf : K → K) (powf : K → K → K) :
    ∀ (calls : List (Option (ModuleView K) × Int)) (d : JuliaScopeDisplay K),
      (d.frameSkip = 0 ∨ d.frameSkip = 1) →
      ((JuliaScopeDisplay.drawLayers sqrtf powf d calls).1.frameSkip : Int)
        = ((d.frameSkip.toNat + (calls.filter (fun c => c.2 = 1)).length) % 2 : Nat) := by
  intro calls
  induction calls with
  | nil =>
    intro d hd
    rcases hd with h | h <;> simp [JuliaScopeDisplay.drawLayers, h]
  | cons c cs ih =>
    intro d hd
    rw [JuliaScopeDisplay.drawLayers]
    by_cases hl : c.2 = 1
    · have hstep : (JuliaScopeDisplay.drawLayer sqrtf powf c.1 d c.2).1.frameSkip
          = if d.frameSkip = 0 then 1 else 0 := by
        unfold JuliaScopeDisplay.drawLayer
        rw [if_neg (by simpa using hl)]
        rcases hd with h | h
        · simp [h, FRAME_SKIP_COUNT]
        · simp only [h, FRAME_SKIP_COUNT]
          rw [if_pos (by decide)]
          cases c.1 <;> simp [JuliaScopeDisplay.renderJuliaSet]
      have hd' : (JuliaScopeDisplay.drawLayer sqrtf powf c.1 d c.2).1.frameSkip = 0 ∨
          (JuliaScopeDisplay.drawLayer sqrtf powf c.1 d c.2).1.frameSkip = 1 := by
        rw [hstep]; rcases hd with h | h <;> simp [h]
      show ((JuliaScopeDisplay.drawLayers sqrtf powf
        (JuliaScopeDisplay.drawLayer sqrtf powf c.1 d c.2).1 cs).1.frameSkip : Int) = _
      rw [ih _ hd', hstep]
      rw [List.filter_cons_of_pos (by simpa using hl), List.length_cons]
      rcases hd with h | h
      · simp only [h]
        norm_num
        omega
      · simp only [h]
        norm_num
        omega
    · have hstep : JuliaScopeDisplay.drawLayer sqrtf powf c.1 d c.2 = (d, false) := by
        unfold JuliaScopeDisplay.drawLayer
        rw [if_pos hl]
      show ((JuliaScopeDisplay.drawLayers sqrtf powf
        (JuliaScopeDisplay.drawLayer sqrtf powf c.1 d c.2).1 cs).1.frameSkip : Int) = _
      rw [hstep, ih d hd, List.filter_cons_of_neg (by simpa using hl)]

/-- A `drawLayer` call on a layer other than 1 does nothing. -/
theorem drawLayer_other_layer {K : Type} [LinearOrderedField K] [FloorRing K]
    (sqrtf : K → K) (powf : K → K → K) (module : Option (ModuleView K))
    (d : JuliaScopeDisplay K) (layer : Int) (h : layer ≠ 1) :
    JuliaScopeDisplay.drawLayer sqrtf powf module d layer = (d, false) := by
  unfold JuliaScopeDisplay.drawLayer
  rw [if_pos h]

/-- A layer-1 call with `frameSkip = 0` only counts; with `frameSkip = 1` it resets the
counter and renders. -/
theorem drawLayer_layer_one {K : Type} [LinearOrderedField K] [FloorRing K]
    (sqrtf : K → K) (powf : K → K → K) (m : ModuleView K) (d : JuliaScopeDisplay K) :
    (d.frameSkip = 0 →
      JuliaScopeDisplay.drawLayer sqrtf powf (some m) d 1 = ({ d with frameSkip := 1 }, false)) ∧
    (d.frameSkip = 1 →
      JuliaScopeDisplay.drawLayer sqrtf powf (some m) d 1
        = (JuliaScopeDisplay.renderJuliaSet sqrtf powf (some m) { d with frameSkip := 0 },
            true)) := by
  constructor
  · intro h
    unfold JuliaScopeDisplay.drawLayer
    rw [if_neg (by decide), h, if_neg (by decide)]
    rfl
  · intro h
    unfold JuliaScopeDisplay.drawLayer
    rw [if_neg (by decide), h, if_pos (by decide)]

/-- C1, as the code has it (`FRAME_SKIP_COUNT = 2`, so the cadence is 2, not 3): on a display
that started fresh and has a module attached, after any history of `drawLayer` calls, the next
layer-1 call, the `n`-th one, does not invoke `renderJuliaSet` and leaves the height field and
the pixel buffer unchanged when `n` is odd, and invokes it, recomputing both, when `n` is even.
So the first layer-1 call does not render, the second does, and from then on exactly every
second one does. -/
theorem drawLayer_throttle {K : Type} [LinearOrderedField K] [FloorRing K]
    (sqrtf : K → K) (powf : K → K → K) (calls : List (Option (ModuleView K) × Int))
    (m : ModuleView K) :
    let d := (JuliaScopeDisplay.drawLayers sqrtf powf JuliaScopeDisplay.init calls).1
    let n := (calls.filter (fun c => c.2 = 1)).length + 1
    let r := JuliaScopeDisplay.drawLayer sqrtf powf (some m) d 1
    (n % 2 ≠ 0 → r.2 = false ∧ r.1.heightMap = d.heightMap ∧ r.1.localPixels = d.localPixels) ∧
    (n % 2 = 0 → r.2 = true ∧ r.1.heightMap = firstPass m d.heightMap ∧
      r.1.localPixels = secondPass sqrtf powf m (firstPass m d.heightMap) d.localPixels) := by
  intro d n r
  have hfs := drawLayers_frameSkip sqrtf powf calls (JuliaScopeDisplay.init : JuliaScopeDisplay K)
    (Or.inl rfl)
  have hfs' : d.frameSkip = (((calls.filter (fun c => c.2 = 1)).length % 2 : Nat) : Int) := by
    rw [hfs]
    simp [JuliaScopeDisplay.init]
  constructor
  · intro hn
    have h0 : d.frameSkip = 0 := by
      rw [hfs']
      have : (calls.filter (fun c => c.2 = 1)).length % 2 = 0 := by omega
      rw [this]
      rfl
    have hr : r = ({ d with frameSkip := 1 }, false) := (drawLayer_layer_one sqrtf powf m d).1 h0
    rw [hr]
    exact ⟨rfl, rfl, rfl⟩
  · intro hn
    have h1 : d.frameSkip = 1 := by
      rw [hfs']
      have : (calls.filter (fun c => c.2 = 1)).length % 2 = 1 := by omega
      rw [this]
      rfl
    have hr : r = (JuliaScopeDisplay.renderJuliaSet sqrtf powf (some m) { d with frameSkip := 0 },
        true) := (drawLayer_layer_one sqrtf powf m d).2 h1
    rw [hr]
    exact ⟨rfl, (renderJuliaSet_some sqrtf powf m _).1, (renderJuliaSet_some sqrtf powf m _).2.1⟩

/-- C1 as stated fails: with the scenario module attached to a fresh display, the second
layer-1 call already invokes `renderJuliaSet` and changes the height field (the centre
pixel's height goes from 0 to 1), although the claim has the first two calls skip. -/
theorem drawLayer_second_call_renders :
    (JuliaScopeDisplay.drawLayer Real.sqrt Real.rpow (some scenarioView)
        (JuliaScopeDisplay.init : JuliaScopeDisplay ℝ) 1).2 = false ∧
    (JuliaScopeDisplay.drawLayer Real.sqrt Real.rpow (some scenarioView)
        (JuliaScopeDisplay.drawLayer Real.sqrt Real.rpow (some scenarioView)
          (JuliaScopeDisplay.init : JuliaScopeDisplay ℝ) 1).1 1).2 = true ∧
    (JuliaScopeDisplay.drawLayer Real.sqrt Real.rpow (some scenarioView)
        (JuliaScopeDisplay.init : JuliaScopeDisplay ℝ) 1).1.heightMap (77 * 200 + 100) = 0 ∧
    (JuliaScopeDisplay.drawLayer Real.sqrt Real.rpow (some scenarioView)
        (JuliaScopeDisplay.drawLayer Real.sqrt Real.rpow (some scenarioView)
          (JuliaScopeDisplay.init : JuliaScopeDisplay ℝ) 1).1 1).1.heightMap (77 * 200 + 100)
      = 1 := by
  have h1 := (drawLayer_layer_one Real.sqrt Real.rpow (scenarioView : ModuleView ℝ)
    (JuliaScopeDisplay.init : JuliaScopeDisplay ℝ)).1 rfl
  rw [h1]
  have h2 := (drawLayer_layer_one Real.sqrt Real.rpow (scenarioView : ModuleView ℝ)
    { (JuliaScopeDisplay.init : JuliaScopeDisplay ℝ) with frameSkip := 1 }).2 rfl
  rw [h2]
  refine ⟨rfl, rfl, rfl, ?_⟩
  rw [(renderJuliaSet_some Real.sqrt Real.rpow scenarioView _).1]
  exact scenario_centre_height _ 77 (Or.inl rfl)

/-! ### The analysis pipeline: the pitch-detector window -/

theorem JuliaScope.run_append (s : JuliaScope) (l₁ l₂ : List ScopeArgs) :
    JuliaScope.run s (l₁ ++ l₂) = JuliaScope.run (JuliaScope.run s l₁) l₂ := by
  unfold JuliaScope.run
  rw [List.foldl_append]

theorem JuliaScope.run_concat (s : JuliaScope) (l : List ScopeArgs) (a : ScopeArgs) :
    JuliaScope.run s (l ++ [a]) = JuliaScope.process (JuliaScope.run s l) a := by
  rw [JuliaScope.run_append]
  rfl

theorem JuliaScope.run_cons (s : JuliaScope) (l : List ScopeArgs) (a : ScopeArgs) :
    JuliaScope.run s (a :: l) = JuliaScope.run (JuliaScope.process s a) l := rfl

/-- The pitch-detector fields after one `process` call. -/
theorem JuliaScope.process_pitch (s : JuliaScope) (a : ScopeArgs) :
    (JuliaScope.process s a).lastSample = a.leftVoltage / 5 ∧
    (JuliaScope.process s a).samplesSinceReset
      = (if s.samplesSinceReset + 1 ≥ 2048 then 0 else s.samplesSinceReset + 1) ∧
    (JuliaScope.process s a).zeroCrossings
      = (if s.samplesSinceReset + 1 ≥ 2048 then 0
          else s.zeroCrossings + (countCrossings s.lastSample [a.leftVoltage / 5] : Int)) ∧
    (JuliaScope.process s a).detectedFreq
      = (if s.samplesSinceReset + 1 ≥ 2048 then
          clamp ((((s.zeroCrossings + (countCrossings s.lastSample [a.leftVoltage / 5] : Int)
            : Int) : ℝ) / 2) * (a.sampleRate / 2048)) 20 5000
          else s.detectedFreq) := by
  have hc : (if (s.lastSample ≤ 0 ∧ a.leftVoltage / 5 > 0) ∨
        (s.lastSample ≥ 0 ∧ a.leftVoltage / 5 < 0) then s.zeroCrossings + 1
        else s.zeroCrossings)
      = s.zeroCrossings + (countCrossings s.lastSample [a.leftVoltage / 5] : Int) := by
    unfold countCrossings countCrossings
    split_ifs <;> simp
  refine ⟨rfl, rfl, ?_, ?_⟩
  · rw [← hc]; rfl
  · rw [← hc]
    simp only [JuliaScope.process, FREQ_WINDOW]
    norm_num

theorem countCrossings_append (last : ℝ) (xs ys : List ℝ) :
    countCrossings last (xs ++ ys)
      = countCrossings last xs + countCrossings (xs.getLastD last) ys := by
  induction xs generalizing last with
  | nil => simp [countCrossings]
  | cons x xs ih =>
    rw [List.cons_append, countCrossings, countCrossings, ih x]
    have : (x :: xs).getLastD last = xs.getLastD x := by
      cases xs <;> simp [List.getLastD]
    rw [this]
    ring

/-- Inside a window: while fewer than 2048 samples have been counted since the reset, a run of
calls leaves `detectedFreq` alone, adds its length to `samplesSinceReset` and its crossings to
`zeroCrossings`. -/
theorem JuliaScope.run_within_window (w : List ScopeArgs) :
    ∀ s : JuliaScope, s.samplesSinceReset + w.length < 2048 →
      (JuliaScope.run s w).samplesSinceReset = s.samplesSinceReset + w.length ∧
      (JuliaScope.run s w).zeroCrossings
        = s.zeroCrossings + (countCrossings s.lastSample (w.map leftSampleOf) : Int) ∧
      (JuliaScope.run s w).detectedFreq = s.detectedFreq ∧
      (JuliaScope.run s w).lastSample = (w.map leftSampleOf).getLastD s.lastSample := by
  induction w with
  | nil =>
    intro s _
    simp [JuliaScope.run, countCrossings]
  | cons a w ih =>
    intro s hs
    rw [List.length_cons] at hs
    push_cast at hs
    obtain ⟨h1, h2, h3, h4⟩ := JuliaScope.process_pitch s a
    have hnot : ¬ (s.samplesSinceReset + 1 ≥ 2048) := by omega
    rw [if_neg hnot] at h2 h3 h4
    have := ih (JuliaScope.process s a) (by rw [h2]; omega)
    rw [JuliaScope.run_cons, this.1, this.2.1, this.2.2.1, this.2.2.2, h1, h2, h3, h4]
    refine ⟨?_, ?_, rfl, ?_⟩
    · rw [List.length_cons]; push_cast; ring
    · rw [List.map_cons, countCrossings]
      unfold leftSampleOf
      simp only [countCrossings]
      push_cast
      ring
    · rw [List.map_cons]
      unfold leftSampleOf
      cases w <;> simp [List.getLastD]

theorem clamp_mem {K : Type} [LinearOrder K] (x a b : K) (hab : a ≤ b) :
    a ≤ clamp x a b ∧ clamp x a b ≤ b :=
  ⟨le_clamp x a b, clamp_le x a b hab⟩

/-- Invariant of the pitch detector over every history of calls. -/
theorem JuliaScope.run_pitch_invariant (l : List ScopeArgs) :
    (JuliaScope.run JuliaScope.init l).samplesSinceReset = ((l.length % 2048 : Nat) : Int) ∧
    (l.length % 2048 = 0 → (JuliaScope.run JuliaScope.init l).zeroCrossings = 0) ∧
    20 ≤ (JuliaScope.run JuliaScope.init l).detectedFreq ∧
    (JuliaScope.run JuliaScope.init l).detectedFreq ≤ 5000 := by
  induction l using List.reverseRecOn with
  | nil =>
    refine ⟨rfl, fun _ => rfl, ?_, ?_⟩ <;> norm_num [JuliaScope.run, JuliaScope.init]
  | append_singleton l a ih =>
    obtain ⟨i1, i2, i3, i4⟩ := ih
    obtain ⟨_, h2, h3, h4⟩ := JuliaScope.process_pitch (JuliaScope.run JuliaScope.init l) a
    rw [JuliaScope.run_concat, h2, h3, h4, i1, List.length_append, List.length_singleton]
    have hlt : l.length % 2048 < 2048 := Nat.mod_lt _ (by decide)
    by_cases hw : l.length % 2048 + 1 = 2048
    · have hc : ((l.length % 2048 : Nat) : Int) + 1 ≥ 2048 := by omega
      have hm : (l.length + 1) % 2048 = 0 := by omega
      rw [if_pos hc, if_pos hc, if_pos hc, hm]
      exact ⟨rfl, fun _ => rfl, (clamp_mem _ 20 5000 (by norm_num)).1,
        (clamp_mem _ 20 5000 (by norm_num)).2⟩
    · have hc : ¬ (((l.length % 2048 : Nat) : Int) + 1 ≥ 2048) := by omega
      have hm : (l.length + 1) % 2048 = l.length % 2048 + 1 := by omega
      rw [if_neg hc, if_neg hc, if_neg hc, hm]
      refine ⟨by push_cast; ring, fun h => by omega, i3, i4⟩

/-- The state reached by a history `l` of calls, seen from the start of the window in progress:
`pre` is the part of `l` before that window (a whole number of windows), `win` the rest. -/
theorem JuliaScope.run_split_window (l : List ScopeArgs) :
    (JuliaScope.run JuliaScope.init (l.take (l.length - l.length % 2048))).samplesSinceReset = 0 ∧
    (JuliaScope.run JuliaScope.init (l.take (l.length - l.length % 2048))).zeroCrossings = 0 ∧
    (JuliaScope.run JuliaScope.init l).samplesSinceReset = ((l.length % 2048 : Nat) : Int) ∧
    (JuliaScope.run JuliaScope.init l).zeroCrossings
      = (countCrossings
          (JuliaScope.run JuliaScope.init (l.take (l.length - l.length % 2048))).lastSample
          ((l.drop (l.length - l.length % 2048)).map leftSampleOf) : Int) ∧
    (JuliaScope.run JuliaScope.init l).lastSample
      = ((l.drop (l.length - l.length % 2048)).map leftSampleOf).getLastD
          (JuliaScope.run JuliaScope.init (l.take (l.length - l.length % 2048))).lastSample := by
  have hlt : l.length % 2048 < 2048 := Nat.mod_lt _ (by decide)
  have hle : l.length % 2048 ≤ l.length := Nat.mod_le _ _
  have hprelen : (l.take (l.length - l.length % 2048)).length = l.length - l.length % 2048 := by
    rw [List.length_take]; omega
  have hwinlen : (l.drop (l.length - l.length % 2048)).length = l.length % 2048 := by
    rw [List.length_drop]; omega
  have hpremod : (l.take (l.length - l.length % 2048)).length % 2048 = 0 := by
    rw [hprelen]; omega
  obtain ⟨p1, p2, _, _⟩ :=
    JuliaScope.run_pitch_invariant (l.take (l.length - l.length % 2048))
  rw [hpremod] at p1
  have p2' := p2 hpremod
  have hrun : JuliaScope.run JuliaScope.init l
      = JuliaScope.run (JuliaScope.run JuliaScope.init (l.take (l.length - l.length % 2048)))
          (l.drop (l.length - l.length % 2048)) := by
    rw [← JuliaScope.run_append, List.take_append_drop]
  obtain ⟨w1, w2, _, w4⟩ := JuliaScope.run_within_window (l.drop (l.length - l.length % 2048))
    (JuliaScope.run JuliaScope.init (l.take (l.length - l.length % 2048)))
    (by rw [p1, hwinlen]; omega)
  rw [← hrun, p2'] at w2
  rw [← hrun] at w4
  refine ⟨by simpa using p1, p2', (JuliaScope.run_pitch_invariant l).1, ?_, w4⟩
  rw [w2, zero_add]

/-- C9: after any history `l` of `process` calls from the initial state, with `r` calls made
since the last reset (`r = |l| mod 2048`): `samplesSinceReset = r` is in `[0, 2048)`,
`zeroCrossings` is the number of crossings among those `r` samples, and `detectedFreq` is in
`[20, 5000]`. The next call leaves `detectedFreq` unchanged unless it is the 2048th since the
reset; then it sets `detectedFreq` to `clamp((k/2) * (sampleRate/2048), 20, 5000)`, `k` the
number of crossings counted over those 2048 samples, and resets `zeroCrossings` and
`samplesSinceReset` to 0. -/
theorem JuliaScope.pitch_window (l : List ScopeArgs) (a : ScopeArgs) :
    let r := l.length % 2048
    let s0 := JuliaScope.run JuliaScope.init (l.take (l.length - r))
    let win := l.drop (l.length - r)
    let s := JuliaScope.run JuliaScope.init l
    let k := countCrossings s0.lastSample ((win ++ [a]).map leftSampleOf)
    (s0.samplesSinceReset = 0 ∧ s0.zeroCrossings = 0) ∧
    (s.samplesSinceReset = (r : Int) ∧ 0 ≤ s.samplesSinceReset ∧ s.samplesSinceReset < 2048) ∧
    s.zeroCrossings = (countCrossings s0.lastSample (win.map leftSampleOf) : Int) ∧
    (20 ≤ s.detectedFreq ∧ s.detectedFreq ≤ 5000) ∧
    (r + 1 < 2048 →
      (JuliaScope.process s a).detectedFreq = s.detectedFreq ∧
      (JuliaScope.process s a).samplesSinceReset = (r : Int) + 1 ∧
      (JuliaScope.process s a).zeroCrossings = (k : Int)) ∧
    (r + 1 = 2048 →
      (JuliaScope.process s a).detectedFreq
        = clamp (((k : ℝ) / 2) * (a.sampleRate / 2048)) 20 5000 ∧
      (JuliaScope.process s a).zeroCrossings = 0 ∧
      (JuliaScope.process s a).samplesSinceReset = 0) := by
  intro r s0 win s k
  obtain ⟨q1, q2, q3, q4, q5⟩ := JuliaScope.run_split_window l
  obtain ⟨_, _, i3, i4⟩ := JuliaScope.run_pitch_invariant l
  obtain ⟨_, h2, h3, h4⟩ := JuliaScope.process_pitch s a
  have hlt : r < 2048 := Nat.mod_lt _ (by decide)
  have hk : (k : Int) = s.zeroCrossings + (countCrossings s.lastSample [a.leftVoltage / 5] : Int) := by
    show ((countCrossings s0.lastSample ((win ++ [a]).map leftSampleOf) : Nat) : Int) = _
    rw [List.map_append, countCrossings_append, q4, q5]
    push_cast
    rfl
  have hs : s.samplesSinceReset = (r : Int) := q3
  refine ⟨⟨q1, q2⟩, ⟨hs, by omega, by omega⟩, q4, ⟨i3, i4⟩, ?_, ?_⟩
  · intro hr
    have hc : ¬ (s.samplesSinceReset + 1 ≥ 2048) := by omega
    rw [if_neg hc] at h2 h3 h4
    rw [h2, h3, h4, hk, hs]
    exact ⟨rfl, rfl, rfl⟩
  · intro hr
    have hc : s.samplesSinceReset + 1 ≥ 2048 := by omega
    rw [if_pos hc] at h2 h3 h4
    rw [h2, h3, h4, ← hk]
    refine ⟨?_, rfl, rfl⟩
    rw [Int.cast_natCast]

/-! ### The analysis pipeline: the frequency estimate of a sampled sine -/

theorem sin_pi_shift (M : ℤ) (u : ℝ) :
    Real.sin (Real.pi * u) = (-1) ^ M * Real.sin (Real.pi * (u - M)) := by
  rw [← Real.sin_add_int_mul_pi (Real.pi * (u - M)) M]
  congr 1
  ring

/-- Sign of `sin (pi u)` for `u` between the consecutive integers `M` and `M + 1`. -/
theorem sin_pi_sign (M : ℤ) (u : ℝ) (h1 : (M : ℝ) < u) (h2 : u ≤ M + 1) :
    (Even M → 0 ≤ Real.sin (Real.pi * u) ∧ (u < M + 1 → 0 < Real.sin (Real.pi * u))) ∧
    (Odd M → Real.sin (Real.pi * u) ≤ 0 ∧ (u < M + 1 → Real.sin (Real.pi * u) < 0)) := by
  have hpi := Real.pi_pos
  have hnn : 0 ≤ Real.sin (Real.pi * (u - M)) :=
    Real.sin_nonneg_of_nonneg_of_le_pi (mul_nonneg hpi.le (by linarith))
      (by nlinarith)
  have hpos : u < M + 1 → 0 < Real.sin (Real.pi * (u - M)) := fun h =>
    Real.sin_pos_of_pos_of_lt_pi (mul_pos hpi (by linarith)) (by nlinarith)
  constructor
  · intro he
    rw [sin_pi_shift M u, he.neg_one_zpow, one_mul]
    exact ⟨hnn, hpos⟩
  · intro ho
    rw [sin_pi_shift M u, ho.neg_one_zpow]
    refine ⟨by linarith, fun h => ?_⟩
    have := hpos h
    linarith

theorem sin_pi_int (M : ℤ) : Real.sin (Real.pi * M) = 0 := by
  rw [mul_comm]
  exact Real.sin_int_mul_pi M

/-- For samples `amp * sin (pi a)` then `amp * sin (pi b)` less than half a turn apart, the
zero-crossing test fires exactly when an integer lies in `[a, b)`. -/
theorem crossing_ceil (amp a b : ℝ) (hamp : 0 < amp) (hab : a < b) (hb : b < a + 1) :
    ((if (amp * Real.sin (Real.pi * a) ≤ 0 ∧ amp * Real.sin (Real.pi * b) > 0) ∨
        (amp * Real.sin (Real.pi * a) ≥ 0 ∧ amp * Real.sin (Real.pi * b) < 0)
      then 1 else 0 : ℕ) : ℤ) = ⌈b⌉ - ⌈a⌉ := by
  have hM1 : ((⌈a⌉ : ℤ) : ℝ) - 1 < a := by
    have := Int.ceil_lt_add_one a
    linarith
  have hM2 : a ≤ ((⌈a⌉ : ℤ) : ℝ) := Int.le_ceil a
  generalize ⌈a⌉ = M at hM1 hM2
  have hcastm : (((M - 1 : ℤ)) : ℝ) = (M : ℝ) - 1 := by push_cast; ring
  by_cases hbM : b ≤ M
  · -- no integer in `[a, b)`
    have hceil : ⌈b⌉ = M := by
      rw [Int.ceil_eq_iff]
      exact ⟨by linarith, hbM⟩
    have haM : a < M := lt_of_lt_of_le hab hbM
    have sa := sin_pi_sign (M - 1) a (by rw [hcastm]; exact hM1) (by rw [hcastm]; linarith)
    have sb := sin_pi_sign (M - 1) b (by rw [hcastm]; linarith) (by rw [hcastm]; linarith)
    have hno : ¬ ((amp * Real.sin (Real.pi * a) ≤ 0 ∧ amp * Real.sin (Real.pi * b) > 0) ∨
        (amp * Real.sin (Real.pi * a) ≥ 0 ∧ amp * Real.sin (Real.pi * b) < 0)) := by
      rcases Int.even_or_odd (M - 1) with he | ho
      · have h1 := (sa.1 he).2 (by rw [hcastm]; linarith)
        have h2 := (sb.1 he).1
        have p1 : 0 < amp * Real.sin (Real.pi * a) := mul_pos hamp h1
        have p2 : 0 ≤ amp * Real.sin (Real.pi * b) := mul_nonneg hamp.le h2
        rintro (⟨h, _⟩ | ⟨_, h⟩) <;> linarith
      · have h1 := (sa.2 ho).2 (by rw [hcastm]; linarith)
        have h2 := (sb.2 ho).1
        have p1 : amp * Real.sin (Real.pi * a) < 0 := mul_neg_of_pos_of_neg hamp h1
        have p2 : amp * Real.sin (Real.pi * b) ≤ 0 := mul_nonpos_of_nonneg_of_nonpos hamp.le h2
        rintro (⟨_, h⟩ | ⟨h, _⟩) <;> linarith
    rw [if_neg hno, hceil]
    simp
  · -- the integer `M` lies in `[a, b)`
    have hbM' : (M : ℝ) < b := lt_of_not_ge hbM
    have hceil : ⌈b⌉ = M + 1 := by
      rw [Int.ceil_eq_iff]
      push_cast
      exact ⟨by linarith, by linarith⟩
    have sb := sin_pi_sign M b hbM' (by linarith)
    have hyes : (amp * Real.sin (Real.pi * a) ≤ 0 ∧ amp * Real.sin (Real.pi * b) > 0) ∨
        (amp * Real.sin (Real.pi * a) ≥ 0 ∧ amp * Real.sin (Real.pi * b) < 0) := by
      rcases Int.even_or_odd M with he | ho
      · left
        have h2 := (sb.1 he).2 (by linarith)
        refine ⟨?_, mul_pos hamp h2⟩
        rcases eq_or_lt_of_le hM2 with h | h
        · rw [h, sin_pi_int, mul_zero]
        · have sa := sin_pi_sign (M - 1) a (by rw [hcastm]; exact hM1) (by rw [hcastm]; linarith)
          have ho' : Odd (M - 1) := by
            obtain ⟨k, hk⟩ := he
            exact ⟨k - 1, by omega⟩
          exact mul_nonpos_of_nonneg_of_nonpos hamp.le (sa.2 ho').1
      · right
        have h2 := (sb.2 ho).2 (by linarith)
        refine ⟨?_, mul_neg_of_pos_of_neg hamp h2⟩
        rcases eq_or_lt_of_le hM2 with h | h
        · rw [h, sin_pi_int, mul_zero]
        · have sa := sin_pi_sign (M - 1) a (by rw [hcastm]; exact hM1) (by rw [hcastm]; linarith)
          have he' : Even (M - 1) := by
            obtain ⟨k, hk⟩ := ho
            exact ⟨k, by omega⟩
          exact mul_nonneg hamp.le (sa.1 he').1
    rw [if_pos hyes, hceil]
    simp

/-- Crossings along consecutive samples of a sequence telescope when each single test is a
difference of a counter `c`. -/
theorem countCrossings_telescope (x : ℕ → ℝ) (c : ℕ → ℤ)
    (hstep : ∀ n, ((countCrossings (x n) [x (n + 1)] : ℕ) : ℤ) = c (n + 1) - c n) :
    ∀ (len N : ℕ), ((countCrossings (x N) ((List.range' (N + 1) len).map x) : ℕ) : ℤ)
      = c (N + len) - c N := by
  intro len
  induction len with
  | zero => intro N; simp [countCrossings]
  | succ len ih =>
    intro N
    rw [List.range'_succ, List.map_cons, countCrossings]
    have h1 := hstep N
    rw [countCrossings, countCrossings, Nat.add_zero] at h1
    have h2 := ih (N + 1)
    push_cast
    rw [h2]
    have e : N + 1 + len = N + (len + 1) := by ring
    rw [e]
    push_cast at h1
    linarith

/-- Closing a window: after a whole number of windows `pre`, the 2048th call of the next
window writes the clamped estimate computed from the crossings of that window. -/
theorem JuliaScope.run_window_close (pre w : List ScopeArgs) (a : ScopeArgs)
    (hpre : pre.length % 2048 = 0) (hw : w.length = 2047) :
    (JuliaScope.run JuliaScope.init (pre ++ (w ++ [a]))).detectedFreq
      = clamp (((countCrossings (JuliaScope.run JuliaScope.init pre).lastSample
          ((w ++ [a]).map leftSampleOf) : ℕ) : ℝ) / 2 * (a.sampleRate / 2048)) 20 5000 := by
  obtain ⟨p1, p2, _, _⟩ := JuliaScope.run_pitch_invariant pre
  rw [hpre] at p1
  have p2' := p2 hpre
  obtain ⟨w1, w2, _, w4⟩ := JuliaScope.run_within_window w (JuliaScope.run JuliaScope.init pre)
    (by rw [p1, hw]; decide)
  rw [p1, hw] at w1
  rw [p2', zero_add] at w2
  obtain ⟨_, _, _, h4⟩ := JuliaScope.process_pitch
    (JuliaScope.run (JuliaScope.run JuliaScope.init pre) w) a
  rw [w1, if_pos (by decide), w2, w4] at h4
  rw [← List.append_assoc, JuliaScope.run_concat, JuliaScope.run_append, h4,
    List.map_append, countCrossings_append]
  push_cast
  rfl

/-- Projection onto an interval does not move a value away from a point of the interval. -/
theorem abs_clamp_sub_le (x a b t : ℝ) (hat : a ≤ t) (htb : t ≤ b) :
    |clamp x a b - t| ≤ |x - t| := by
  unfold clamp
  rcases le_total x b with h1 | h1
  · rw [min_eq_left h1]
    rcases le_total x a with h2 | h2
    · rw [max_eq_right h2, abs_of_nonpos (by linarith), abs_of_nonpos (by linarith)]
      linarith
    · rw [max_eq_left h2]
  · rw [min_eq_right h1, max_eq_left (by linarith : a ≤ b),
      abs_of_nonneg (by linarith), abs_of_nonneg (by linarith)]
    linarith

/-- The estimate `k/2 * (R/2048)` is within one bin of `F` once the crossing count `k` is within
2 of `4096 F / R`. -/
theorem estimate_within_bin (F R k : ℝ) (hR : 0 < R)
    (h1 : -2 < k - 2048 * (2 * F / R)) (h2 : k - 2048 * (2 * F / R) < 2) :
    |k / 2 * (R / 2048) - F| ≤ R / 2048 := by
  have e : k / 2 * (R / 2048) - F = (k - 2048 * (2 * F / R)) * (R / 4096) := by
    field_simp
    ring
  rw [e, abs_le]
  have hR' : 0 < R / 4096 := by positivity
  constructor
  · nlinarith
  · nlinarith

/-- C5: let the left input be an exact sine of frequency `F`, `20 <= F <= 5000`,
`F < R/2`, sampled at rate `R`: the `n`-th call reads `A sin(2 pi F n / R + phi)`, `A > 0`,
and every call has sample rate `R`. Then at the end of every completed 2048-sample window
(after `2048 m` calls, `m >= 1`) the value of `detectedFreq` differs from `F` by at most one
bin, `R / 2048`. -/
theorem JuliaScope.sine_frequency_estimate (F R A φ : ℝ) (calls : ℕ → ScopeArgs)
    (hF : 20 ≤ F ∧ F ≤ 5000) (hN : F < R / 2) (hA : 0 < A)
    (hcalls : ∀ n : ℕ,
      (calls n).leftVoltage = A * Real.sin (2 * Real.pi * F * n / R + φ) ∧
      (calls n).sampleRate = R)
    (m : ℕ) (hm : 1 ≤ m) :
    |(JuliaScope.run JuliaScope.init ((List.range (2048 * m)).map calls)).detectedFreq - F|
      ≤ R / 2048 := by
  obtain ⟨hF1, hF2⟩ := hF
  have hR : 0 < R := by linarith
  have hpi := Real.pi_pos
  obtain ⟨m', rfl⟩ : ∃ m', m = m' + 1 := ⟨m - 1, by omega⟩
  -- the samples and their phase in half turns
  have hδ0 : 0 < 2 * F / R := by positivity
  have hδ1 : 2 * F / R < 1 := by rw [div_lt_one hR]; linarith
  have hx : ∀ n : ℕ, leftSampleOf (calls n)
      = A / 5 * Real.sin (Real.pi * (2 * F / R * n + φ / Real.pi)) := by
    intro n
    unfold leftSampleOf
    rw [(hcalls n).1]
    have : 2 * Real.pi * F * n / R + φ = Real.pi * (2 * F / R * n + φ / Real.pi) := by
      field_simp
      ring
    rw [this]
    ring
  have hstep : ∀ n : ℕ,
      ((countCrossings (leftSampleOf (calls n)) [leftSampleOf (calls (n + 1))] : ℕ) : ℤ)
        = ⌈2 * F / R * ((n + 1 : ℕ) : ℝ) + φ / Real.pi⌉ - ⌈2 * F / R * (n : ℝ) + φ / Real.pi⌉ := by
    intro n
    rw [countCrossings, countCrossings, Nat.add_zero, hx n, hx (n + 1)]
    apply crossing_ceil (A / 5) _ _ (by positivity)
    · push_cast; linarith
    · push_cast; linarith
  have htel := countCrossings_telescope (fun n => leftSampleOf (calls n))
    (fun n => ⌈2 * F / R * (n : ℝ) + φ / Real.pi⌉) hstep
  -- split the history into the completed windows and the last one
  have hr : List.range' (2048 * m') 2048
      = List.range' (2048 * m') 2047 ++ [2048 * m' + 2047] := by
    have h := @List.range'_concat 1 (2048 * m') 2047
    rw [Nat.one_mul] at h
    exact h
  have hsplit : (List.range (2048 * (m' + 1))).map calls
      = (List.range (2048 * m')).map calls
        ++ ((List.range' (2048 * m') 2047).map calls ++ [calls (2048 * m' + 2047)]) := by
    have h1 : List.range (2048 * (m' + 1))
        = List.range (2048 * m') ++ (List.range' (2048 * m') 2047 ++ [2048 * m' + 2047]) := by
      rw [← hr, List.range_eq_range', List.range_eq_range',
        show 2048 * (m' + 1) = 2048 + 2048 * m' by ring,
        ← List.range'_append 0 (2048 * m') 2048 1, Nat.zero_add, Nat.one_mul]
    rw [h1, List.map_append, List.map_append, List.map_singleton]
  have hmapw : ((List.range' (2048 * m') 2047).map calls ++ [calls (2048 * m' + 2047)]).map
      leftSampleOf = (List.range' (2048 * m') 2048).map (fun n => leftSampleOf (calls n)) := by
    rw [hr, List.map_append, List.map_append, List.map_map, List.map_singleton,
      List.map_singleton]
    rfl
  rw [hsplit, JuliaScope.run_window_close _ _ _ (by simp) (by simp), hmapw, (hcalls _).2]
  refine le_trans (abs_clamp_sub_le _ 20 5000 F hF1 hF2) ?_
  apply estimate_within_bin F R _ hR
  · -- lower bound on the count
    rcases Nat.eq_zero_or_pos m' with h0 | hpos
    · subst h0
      have hk : ((countCrossings (JuliaScope.run JuliaScope.init
            ((List.range (2048 * 0)).map calls)).lastSample
          ((List.range' (2048 * 0) 2048).map (fun n => leftSampleOf (calls n))) : ℕ) : ℤ)
          ≥ ⌈2 * F / R * ((0 + 2047 : ℕ) : ℝ) + φ / Real.pi⌉
            - ⌈2 * F / R * ((0 : ℕ) : ℝ) + φ / Real.pi⌉ := by
        rw [show (2048 : ℕ) * 0 = 0 from rfl, show (2048 : ℕ) = 2047 + 1 from rfl,
          List.range'_succ, List.map_cons, countCrossings, ← htel 2047 0]
        push_cast
        omega
      have hkR := (Int.cast_le (R := ℝ)).mpr hk
      push_cast at hkR
      have b1 := Int.le_ceil (2 * F / R * (0 + 2047) + φ / Real.pi)
      have b2 := Int.ceil_lt_add_one (2 * F / R * 0 + φ / Real.pi)
      linarith
    · obtain ⟨N, hNeq⟩ : ∃ N, 2048 * m' = N + 1 := ⟨2048 * m' - 1, by omega⟩
      have hlast : (JuliaScope.run JuliaScope.init ((List.range (2048 * m')).map calls)).lastSample
          = leftSampleOf (calls N) := by
        rw [hNeq, List.range_succ, List.map_append, List.map_singleton, JuliaScope.run_concat]
        exact (JuliaScope.process_pitch _ _).1
      rw [hlast, hNeq]
      have hk := htel 2048 N
      simp only at hk
      have hkR := congrArg (Int.cast (R := ℝ)) hk
      push_cast at hkR
      rw [hkR]
      have b1 := Int.le_ceil (2 * F / R * ((N : ℝ) + 2048) + φ / Real.pi)
      have b2 := Int.ceil_lt_add_one (2 * F / R * (N : ℝ) + φ / Real.pi)
      linarith
  · -- upper bound on the count
    rcases Nat.eq_zero_or_pos m' with h0 | hpos
    · subst h0
      have hk : ((countCrossings (JuliaScope.run JuliaScope.init
            ((List.range (2048 * 0)).map calls)).lastSample
          ((List.range' (2048 * 0) 2048).map (fun n => leftSampleOf (calls n))) : ℕ) : ℤ)
          ≤ 1 + (⌈2 * F / R * ((0 + 2047 : ℕ) : ℝ) + φ / Real.pi⌉
            - ⌈2 * F / R * ((0 : ℕ) : ℝ) + φ / Real.pi⌉) := by
        rw [show (2048 : ℕ) * 0 = 0 from rfl, show (2048 : ℕ) = 2047 + 1 from rfl,
          List.range'_succ, List.map_cons, countCrossings, ← htel 2047 0]
        push_cast
        split_ifs <;> omega
      have hkR := (Int.cast_le (R := ℝ)).mpr hk
      push_cast at hkR
      have b1 := Int.ceil_lt_add_one (2 * F / R * (0 + 2047) + φ / Real.pi)
      have b2 := Int.le_ceil (2 * F / R * 0 + φ / Real.pi)
      linarith
    · obtain ⟨N, hNeq⟩ : ∃ N, 2048 * m' = N + 1 := ⟨2048 * m' - 1, by omega⟩
      have hlast : (JuliaScope.run JuliaScope.init ((List.range (2048 * m')).map calls)).lastSample
          = leftSampleOf (calls N) := by
        rw [hNeq, List.range_succ, List.map_append, List.map_singleton, JuliaScope.run_concat]
        exact (JuliaScope.process_pitch _ _).1
      rw [hlast, hNeq]
      have hk := htel 2048 N
      simp only at hk
      have hkR := congrArg (Int.cast (R := ℝ)) hk
      push_cast at hkR
      rw [hkR]
      have b1 := Int.ceil_lt_add_one (2 * F / R * ((N : ℝ) + 2048) + φ / Real.pi)
      have b2 := Int.le_ceil (2 * F / R * (N : ℝ) + φ / Real.pi)
      linarith

/-- Instance of C5: a 440 Hz sine of amplitude 5 V sampled at 44.1 kHz, first window. -/
theorem JuliaScope.sine_frequency_estimate_witness :
    ((20 : ℝ) ≤ 440 ∧ (440 : ℝ) ≤ 5000) ∧ (440 : ℝ) < 44100 / 2 ∧ (0 : ℝ) < 5 ∧
    |(JuliaScope.run JuliaScope.init ((List.range (2048 * 1)).map (fun n : ℕ =>
        (⟨44100, 1 / 44100, 5 * Real.sin (2 * Real.pi * 440 * n / 44100 + 0), 0, false,
          0, 0, 0, -0.7, 0.27015, 1, 64, 0, 0.5, 0.1, 0.5⟩ : ScopeArgs)))).detectedFreq - 440|
      ≤ 44100 / 2048 :=
  ⟨⟨by norm_num, by norm_num⟩, by norm_num, by norm_num,
    JuliaScope.sine_frequency_estimate 440 44100 5 0 (fun n : ℕ =>
        (⟨44100, 1 / 44100, 5 * Real.sin (2 * Real.pi * 440 * n / 44100 + 0), 0, false,
          0, 0, 0, -0.7, 0.27015, 1, 64, 0, 0.5, 0.1, 0.5⟩ : ScopeArgs))
      ⟨by norm_num, by norm_num⟩ (by norm_num) (by norm_num) (fun _ => ⟨rfl, rfl⟩) 1 (le_refl 1)⟩

/-! ### Instances of the renderer and window theorems -/

/-- Instance of C1 over `ℚ`: on a fresh display the first layer-1 call does not render and
the second one does. -/
theorem drawLayer_throttle_witness :
    (JuliaScopeDisplay.drawLayer (fun x : ℚ => x) (fun x _ => x) (some scenarioView)
      (JuliaScopeDisplay.drawLayers (fun x : ℚ => x) (fun x _ => x) JuliaScopeDisplay.init
        []).1 1).2 = false ∧
    (JuliaScopeDisplay.drawLayer (fun x : ℚ => x) (fun x _ => x) (some scenarioView)
      (JuliaScopeDisplay.drawLayers (fun x : ℚ => x) (fun x _ => x) JuliaScopeDisplay.init
        [(some scenarioView, 1)]).1 1).2 = true :=
  ⟨((drawLayer_throttle (fun x : ℚ => x) (fun x _ => x) [] scenarioView).1 (by decide)).1,
    ((drawLayer_throttle (fun x : ℚ => x) (fun x _ => x) [(some scenarioView, 1)]
      scenarioView).2 (by decide)).1⟩

/-- Instance of C7 over `ℚ`, rendering onto a fresh display: the centre pixel `(100, 77)` has
height 1 and alpha 255, the corner `(199, 154)` has an escape-time count below 10. -/
theorem renderJuliaSet_scenario_witness :
    (JuliaScopeDisplay.renderJuliaSet (fun x : ℚ => x) (fun x _ => x) (some scenarioView)
      JuliaScopeDisplay.init).heightMap (77 * 200 + 100) = 1 ∧
    (JuliaScopeDisplay.renderJuliaSet (fun x : ℚ => x) (fun x _ => x) (some scenarioView)
      JuliaScopeDisplay.init).localPixels ((77 * 200 + 100) * 4 + 3) = 255 ∧
    escapeIter (-0.1 : ℚ) 0.1 64 (pixelX0 1 199) (pixelY0 1 0 154) 0 < 10 :=
  ⟨((renderJuliaSet_scenario (fun x : ℚ => x) (fun x _ => x) JuliaScopeDisplay.init).1 77
      (Or.inl rfl)).2.1,
    ((renderJuliaSet_scenario (fun x : ℚ => x) (fun x _ => x) JuliaScopeDisplay.init).1 77
      (Or.inl rfl)).2.2.2.2.2,
    ((renderJuliaSet_scenario (fun x : ℚ => x) (fun x _ => x) JuliaScopeDisplay.init).2 199 154
      (Or.inr rfl) (Or.inr rfl)).1⟩

/-- Instance of C9: the first call of a fresh module leaves `detectedFreq` at 440, and the
2048th call of a run of identical calls resets both counters. -/
theorem JuliaScope.pitch_window_witness :
    (JuliaScope.process (JuliaScope.run JuliaScope.init [])
      ⟨44100, 1 / 44100, 5, 0, false, 0, 0, 0, -0.7, 0.27015, 1, 64, 0, 0.5, 0.1, 0.5⟩).detectedFreq
      = (JuliaScope.run JuliaScope.init []).detectedFreq ∧
    (JuliaScope.process (JuliaScope.run JuliaScope.init (List.replicate 2047
        ⟨44100, 1 / 44100, 5, 0, false, 0, 0, 0, -0.7, 0.27015, 1, 64, 0, 0.5, 0.1, 0.5⟩))
      ⟨44100, 1 / 44100, 5, 0, false, 0, 0, 0, -0.7, 0.27015, 1, 64, 0, 0.5, 0.1, 0.5⟩).zeroCrossings
      = 0 ∧
    (JuliaScope.process (JuliaScope.run JuliaScope.init (List.replicate 2047
        ⟨44100, 1 / 44100, 5, 0, false, 0, 0, 0, -0.7, 0.27015, 1, 64, 0, 0.5, 0.1, 0.5⟩))
      ⟨44100, 1 / 44100, 5, 0, false, 0, 0, 0, -0.7, 0.27015, 1, 64, 0, 0.5, 0.1, 0.5⟩).samplesSinceReset
      = 0 :=
  ⟨((JuliaScope.pitch_window []
      ⟨44100, 1 / 44100, 5, 0, false, 0, 0, 0, -0.7, 0.27015, 1, 64, 0, 0.5, 0.1, 0.5⟩).2.2.2.2.1
        (by decide)).1,
    ((JuliaScope.pitch_window (List.replicate 2047
        ⟨44100, 1 / 44100, 5, 0, false, 0, 0, 0, -0.7, 0.27015, 1, 64, 0, 0.5, 0.1, 0.5⟩)
      ⟨44100, 1 / 44100, 5, 0, false, 0, 0, 0, -0.7, 0.27015, 1, 64, 0, 0.5, 0.1, 0.5⟩).2.2.2.2.2
        (by rw [List.length_replicate])).2.1,
    ((JuliaScope.pitch_window (List.replicate 2047
        ⟨44100, 1 / 44100, 5, 0, false, 0, 0, 0, -0.7, 0.27015, 1, 64, 0, 0.5, 0.1, 0.5⟩)
      ⟨44100, 1 / 44100, 5, 0, false, 0, 0, 0, -0.7, 0.27015, 1, 64, 0, 0.5, 0.1, 0.5⟩).2.2.2.2.2
        (by rw [List.length_replicate])).2.2⟩

/-! ### The zero-crossing test on a run of exact zeros -/

/-- The test does not fire on entering or inside a run of exact zeros. -/
theorem countCrossings_zeros (p : ℝ) (n : ℕ) :
    countCrossings p (List.replicate n 0) = 0 ∧
      (List.replicate n (0 : ℝ)).getLastD p = if n = 0 then p else 0 := by
  have hz : ∀ k : ℕ, countCrossings 0 (List.replicate k (0 : ℝ)) = 0 := by
    intro k
    induction k with
    | zero => rfl
    | succ k ih => rw [List.replicate_succ, countCrossings, ih]; simp
  have hl : ∀ k : ℕ, (List.replicate (k + 1) (0 : ℝ)).getLastD p = 0 := by
    intro k
    induction k with
    | zero => rfl
    | succ k ih =>
      rw [List.replicate_succ]
      rw [List.replicate_succ] at ih
      simp only [List.getLastD_cons] at ih ⊢
      rw [List.replicate_succ]
      simp only [List.getLastD_cons]
      cases k with
      | zero => rfl
      | succ k =>
        rw [List.replicate_succ] at ih ⊢
        simpa only [List.getLastD_cons] using ih
  cases n with
  | zero => exact ⟨rfl, rfl⟩
  | succ n =>
    refine ⟨?_, by rw [hl n]; simp⟩
    rw [List.replicate_succ, countCrossings, hz n]
    simp

/-- A passage through a run of zeros between two samples of opposite strict sign fires the
test exactly once, on leaving the run. -/
theorem countCrossings_through_zeros (p q : ℝ) (n : ℕ)
    (hsign : (0 < p ∧ q < 0) ∨ (p < 0 ∧ 0 < q)) :
    countCrossings p (List.replicate n 0 ++ [q]) = 1 := by
  obtain ⟨h0, hl⟩ := countCrossings_zeros p n
  rw [countCrossings_append, h0, hl, countCrossings, countCrossings]
  by_cases hn : n = 0
  · rw [if_pos hn]
    have : (p ≤ 0 ∧ q > 0) ∨ (p ≥ 0 ∧ q < 0) := by
      rcases hsign with ⟨h1, h2⟩ | ⟨h1, h2⟩
      · exact Or.inr ⟨h1.le, h2⟩
      · exact Or.inl ⟨h1.le, h2⟩
    rw [if_pos this]
  · rw [if_neg hn]
    have : ((0 : ℝ) ≤ 0 ∧ q > 0) ∨ ((0 : ℝ) ≥ 0 ∧ q < 0) := by
      rcases hsign with ⟨_, h2⟩ | ⟨_, h2⟩
      · exact Or.inr ⟨le_refl _, h2⟩
      · exact Or.inl ⟨le_refl _, h2⟩
    rw [if_pos this]

/-- C11, as the code has it: when the left input goes from a strictly positive sample `p`
through a run of `n` exactly-zero samples (`n >= 1`, and `n = 0` as well) to a strictly
negative sample `q`, or from negative through zeros to positive, the test of `process` fires
on none of the zero samples and once on `q`; inside a pitch window `zeroCrossings` is
therefore incremented exactly once over that passage, which is what an ideal zero-crossing
counter counts for that single sign change, not twice. -/
theorem JuliaScope.zero_run_counted_once (s : JuliaScope) (w : List ScopeArgs) (n : ℕ)
    (p q : ℝ) (hlast : s.lastSample = p)
    (hw : w.map leftSampleOf = List.replicate n 0 ++ [q])
    (hsign : (0 < p ∧ q < 0) ∨ (p < 0 ∧ 0 < q))
    (hwin : s.samplesSinceReset + w.length < 2048) :
    countCrossings p (List.replicate n 0) = 0 ∧
    countCrossings p (List.replicate n 0 ++ [q]) = 1 ∧
    (JuliaScope.run s w).zeroCrossings = s.zeroCrossings + 1 := by
  have h1 := countCrossings_through_zeros p q n hsign
  refine ⟨(countCrossings_zeros p n).1, h1, ?_⟩
  rw [(JuliaScope.run_within_window w s hwin).2.1, hlast, hw, h1]
  rfl

/-- Instance of C11: after a first call at 5 V, a call at 0 V and a call at -5 V. -/
theorem JuliaScope.zero_run_counted_once_witness :
    ((0 : ℝ) < 1 ∧ (-1 : ℝ) < 0) ∧
    (JuliaScope.run (JuliaScope.process JuliaScope.init
        ⟨44100, 1 / 44100, 5, 0, false, 0, 0, 0, -0.7, 0.27015, 1, 64, 0, 0.5, 0.1, 0.5⟩)
      [⟨44100, 1 / 44100, 0, 0, false, 0, 0, 0, -0.7, 0.27015, 1, 64, 0, 0.5, 0.1, 0.5⟩,
        ⟨44100, 1 / 44100, -5, 0, false, 0, 0, 0, -0.7, 0.27015, 1, 64, 0, 0.5, 0.1, 0.5⟩]).zeroCrossings
      = (JuliaScope.process JuliaScope.init
        ⟨44100, 1 / 44100, 5, 0, false, 0, 0, 0, -0.7, 0.27015, 1, 64, 0, 0.5, 0.1, 0.5⟩).zeroCrossings
        + 1 :=
  ⟨⟨by norm_num, by norm_num⟩,
    (JuliaScope.zero_run_counted_once (JuliaScope.process JuliaScope.init
        ⟨44100, 1 / 44100, 5, 0, false, 0, 0, 0, -0.7, 0.27015, 1, 64, 0, 0.5, 0.1, 0.5⟩)
      [⟨44100, 1 / 44100, 0, 0, false, 0, 0, 0, -0.7, 0.27015, 1, 64, 0, 0.5, 0.1, 0.5⟩,
        ⟨44100, 1 / 44100, -5, 0, false, 0, 0, 0, -0.7, 0.27015, 1, 64, 0, 0.5, 0.1, 0.5⟩]
      1 1 (-1)
      (by rw [(JuliaScope.process_pitch _ _).1]; norm_num)
      (by simp only [List.map_cons, List.map_nil, leftSampleOf, List.replicate_succ,
            List.replicate_zero, List.cons_append, List.nil_append]
          norm_num)
      (Or.inl ⟨by norm_num, by norm_num⟩)
      (by rw [(JuliaScope.process_pitch _ _).2.1]
          norm_num [JuliaScope.init])).2.2⟩

/-- C11 as stated fails: over the passage `1, 0, -1` (left voltages `5, 0, -5`) on a fresh
module `zeroCrossings` goes from 1 to 2, an increment of one, not of two. -/
theorem JuliaScope.zero_run_not_counted_twice :
    (JuliaScope.run JuliaScope.init
      [⟨44100, 1 / 44100, 5, 0, false, 0, 0, 0, -0.7, 0.27015, 1, 64, 0, 0.5, 0.1, 0.5⟩]).lastSample
      = 1 ∧
    (JuliaScope.run JuliaScope.init
      [⟨44100, 1 / 44100, 5, 0, false, 0, 0, 0, -0.7, 0.27015, 1, 64, 0, 0.5, 0.1, 0.5⟩]).zeroCrossings
      = 1 ∧
    (JuliaScope.run JuliaScope.init
      [⟨44100, 1 / 44100, 5, 0, false, 0, 0, 0, -0.7, 0.27015, 1, 64, 0, 0.5, 0.1, 0.5⟩,
        ⟨44100, 1 / 44100, 0, 0, false, 0, 0, 0, -0.7, 0.27015, 1, 64, 0, 0.5, 0.1, 0.5⟩,
        ⟨44100, 1 / 44100, -5, 0, false, 0, 0, 0, -0.7, 0.27015, 1, 64, 0, 0.5, 0.1, 0.5⟩]).zeroCrossings
      = 2 ∧
    (JuliaScope.run JuliaScope.init
      [⟨44100, 1 / 44100, 5, 0, false, 0, 0, 0, -0.7, 0.27015, 1, 64, 0, 0.5, 0.1, 0.5⟩,
        ⟨44100, 1 / 44100, 0, 0, false, 0, 0, 0, -0.7, 0.27015, 1, 64, 0, 0.5, 0.1, 0.5⟩,
        ⟨44100, 1 / 44100, -5, 0, false, 0, 0, 0, -0.7, 0.27015, 1, 64, 0, 0.5, 0.1, 0.5⟩]).zeroCrossings
      ≠ 1 + 2 := by
  have h1 := JuliaScope.run_within_window
    [⟨44100, 1 / 44100, 5, 0, false, 0, 0, 0, -0.7, 0.27015, 1, 64, 0, 0.5, 0.1, 0.5⟩]
    JuliaScope.init (by norm_num [JuliaScope.init])
  have h3 := JuliaScope.run_within_window
    [⟨44100, 1 / 44100, 5, 0, false, 0, 0, 0, -0.7, 0.27015, 1, 64, 0, 0.5, 0.1, 0.5⟩,
      ⟨44100, 1 / 44100, 0, 0, false, 0, 0, 0, -0.7, 0.27015, 1, 64, 0, 0.5, 0.1, 0.5⟩,
      ⟨44100, 1 / 44100, -5, 0, false, 0, 0, 0, -0.7, 0.27015, 1, 64, 0, 0.5, 0.1, 0.5⟩]
    JuliaScope.init (by norm_num [JuliaScope.init])
  have c1 : countCrossings (0 : ℝ) [5 / 5] = 1 := by
    norm_num [countCrossings]
  have c3 : countCrossings (0 : ℝ) [5 / 5, 0 / 5, -5 / 5] = 2 := by
    norm_num [countCrossings]
  have e1 : JuliaScope.init.lastSample = 0 := rfl
  have e2 : JuliaScope.init.zeroCrossings = 0 := rfl
  simp only [List.map_cons, List.map_nil, leftSampleOf, e1, e2] at h1 h3
  rw [c1] at h1
  rw [c3] at h3
  refine ⟨?_, ?_, ?_, ?_⟩
  · rw [h1.2.2.2]; norm_num [List.getLastD]
  · rw [h1.2.1]; rfl
  · rw [h3.2.1]; rfl
  · rw [h3.2.1]; decide

end VCV
